import Mathlib

/-!
Verification of the dice / combat-resolution core of the LitRPG toolkit.

The definitions below are a shallow embedding of
`src/Learning/adventure_litrpg/system/lib/dice.py` and of the combat
methods of `src/Learning/adventure_litrpg/system/game_engine.py`
(`attack`, `take_damage`, `heal`, `cast_spell`, `apply_status_effect`,
`tick_status_effects`, `skill_check`).

Modelling conventions:
* Python `int` is `Int` (arbitrary precision in both); string digits via
  `List Char`.
* Python functions that can raise (`ValueError` from `parse_dice_string`,
  `KeyError` from direct config indexing, `TypeError` from `int(None)`)
  return `Option _`, with `none` for the raising executions.
* `random.randint(1, s)` draws are supplied as an oracle `draws : Nat → Nat`
  (the i-th die of a roll is `draws i`); `random.random() < p` coin flips
  are supplied as `Bool` parameters.  Theorems quantify over the oracles.
* Python floats (`crit_multiplier = 2.0`, the literal `1.1`) are modelled
  as exact rationals; `int(x)` on a float is truncation toward zero
  (`pyTrunc`).  No claim in scope depends on binary-float rounding.
* `save_state()` (atomic persist) is modelled as incrementing a `saves`
  counter on the engine state.
-/

namespace Game

/-- Truncation toward zero, the behaviour of Python `int()` on a number. -/
def pyTrunc (q : Rat) : Int := if 0 ≤ q then q.floor else q.ceil

/-- Start codepoints of the non-ASCII Unicode Nd digit decades: each is
ten consecutive codepoints carrying decimal values 0–9.  This is the set
matched by Python's `\d` on str patterns (CPython 3.11 Unicode data). -/
def ndRangeStarts : List Nat :=
  [0x660, 0x6F0, 0x7C0, 0x966, 0x9E6, 0xA66, 0xAE6, 0xB66,
   0xBE6, 0xC66, 0xCE6, 0xD66, 0xDE6, 0xE50, 0xED0, 0xF20,
   0x1040, 0x1090, 0x17E0, 0x1810, 0x1946, 0x19D0, 0x1A80, 0x1A90,
   0x1B50, 0x1BB0, 0x1C40, 0x1C50, 0xA620, 0xA8D0, 0xA900, 0xA9D0,
   0xA9F0, 0xAA50, 0xABF0, 0xFF10, 0x104A0, 0x10D30, 0x11066, 0x110F0,
   0x11136, 0x111D0, 0x112F0, 0x11450, 0x114D0, 0x11650, 0x116C0, 0x11730,
   0x118E0, 0x11950, 0x11C50, 0x11D50, 0x11DA0, 0x16A60, 0x16AC0, 0x16B50,
   0x1D7CE, 0x1D7D8, 0x1D7E2, 0x1D7EC, 0x1D7F6, 0x1E140, 0x1E2F0, 0x1E950,
   0x1FBF0]

/-- Python's `\d` on a str pattern: an ASCII digit or any other Unicode
decimal digit (category Nd). -/
def isPyDigit (c : Char) : Bool :=
  c.isDigit || ndRangeStarts.any fun s => s ≤ c.toNat && c.toNat < s + 10

/-- Decimal value of a Unicode decimal digit as used by Python `int()`:
`'0'`–`'9'` ↦ 0–9, and likewise inside each Nd decade. -/
def digitVal (c : Char) : Nat :=
  if c.isDigit then c.toNat - 48
  else
    match ndRangeStarts.find? (fun s => s ≤ c.toNat && c.toNat < s + 10) with
    | some s => c.toNat - s
    | none => 0

/-- Value of a list of decimal digit characters, most significant first.
Models Python `int()` applied to a digit string. -/
def digitsVal (l : List Char) : Nat := l.foldl (fun a c => 10 * a + digitVal c) 0

/-- Drop every ASCII space, modelling Python `str.replace(' ', '')`. -/
def stripSpaces (l : List Char) : List Char := l.filter (fun c => c != ' ')

/-- Python's `$` anchor under `re.match` without `re.MULTILINE`: it
matches at the end of the input or just before one single trailing
newline. -/
def pyEnd : List Char → Bool
  | [] => true
  | [c] => c == '\n'
  | _ => false

/-- Match `NN [(+|-) NN] $` — the part of the regex
`^(\d+)d(\d+)([+-]\d+)?$` after the `d` — returning the die size and the
modifier.  `\d` is any Unicode decimal digit and the final `$` accepts
the end of input or one single trailing newline (Python `re` semantics). -/
def matchBody (r : List Char) : Option (Nat × Int) :=
  let ds := r.takeWhile isPyDigit
  let rest := r.dropWhile isPyDigit
  if ds.isEmpty then none else
  if pyEnd rest then some (digitsVal ds, 0) else
  match rest with
  | c :: r4 =>
      let ds2 := r4.takeWhile isPyDigit
      let rest2 := r4.dropWhile isPyDigit
      if !ds2.isEmpty && pyEnd rest2 then
        if c = '+' then some (digitsVal ds, (digitsVal ds2 : Int))
        else if c = '-' then some (digitsVal ds, -(digitsVal ds2 : Int))
        else none
      else none
  | [] => none

/-- Full match of the regex `^(\d+)d(\d+)([+-]\d+)?$` used by
`parse_dice_string`, returning `(num_dice, die_size, modifier)`; Python
semantics as in `matchBody`. -/
def matchDice (l : List Char) : Option (Nat × Nat × Int) :=
  let ds := l.takeWhile isPyDigit
  let rest := l.dropWhile isPyDigit
  if ds.isEmpty then none else
  match rest with
  | c :: r => if c = 'd' then (matchBody r).map fun p => (digitsVal ds, p.1, p.2) else none
  | [] => none

/-- `dice.parse_dice_string`: if the text starts with `'d'` a count of 1 is
prepended, then spaces are removed and the regex
`^(\d+)d(\d+)([+-]\d+)?$` is matched.  `none` models the raised
`ValueError`. -/
def parse_dice_string (s : String) : Option (Nat × Nat × Int) :=
  let l := if s.data.head? = some 'd' then '1' :: s.data else s.data
  matchDice (stripSpaces l)

/-- `dice.roll_dice` (total only): parse, draw `count` dice from the
oracle, sum and add the modifier. -/
def roll_dice (dice_str : String) (draws : Nat → Nat) : Option Int :=
  (parse_dice_string dice_str).map fun t =>
    ((List.range t.1).map fun i => (draws i : Int)).sum + t.2.2

/-- `dice.roll_damage`: base roll plus flat bonus, multiplied (and
truncated by `int()`) on a critical, floored at 1. -/
def roll_damage (weapon_damage : String) (damage_bonus : Int) (is_crit : Bool)
    (crit_multiplier : Rat) (draws : Nat → Nat) : Option Int :=
  (roll_dice weapon_damage draws).map fun base_damage =>
    let total := base_damage + damage_bonus
    let total := if is_crit then pyTrunc ((total : Rat) * crit_multiplier) else total
    max 1 total

/-- Python `int(str)` on a decimal literal: optional surrounding spaces,
optional sign, then digits.  `none` models the raised `ValueError`. -/
def pyIntParse (s : String) : Option Int :=
  let t := s.data.dropWhile (fun c => c == ' ')
  let t := (t.reverse.dropWhile (fun c => c == ' ')).reverse
  match t with
  | '+' :: r => if !r.isEmpty && r.all Char.isDigit then some ((digitsVal r : Int)) else none
  | '-' :: r => if !r.isEmpty && r.all Char.isDigit then some (-(digitsVal r : Int)) else none
  | r => if !r.isEmpty && r.all Char.isDigit then some ((digitsVal r : Int)) else none

/-- `dice.roll_healing`: a plain integer literal is honored exactly,
otherwise the text is rolled as dice; the bonus is added either way. -/
def roll_healing (heal_str : String) (draws : Nat → Nat) (heal_bonus : Int) : Option Int :=
  match pyIntParse heal_str with
  | some n => some (n + heal_bonus)
  | none => (roll_dice heal_str draws).map fun r => r + heal_bonus

/-- Decimal digits of `n`, most significant first, via the fuel-based
helper (`fuel = n` always suffices).  Models Python `str()` on a
non-negative int. -/
def natReprAux : Nat → Nat → List Char → List Char
  | 0, n, acc => Char.ofNat (48 + n % 10) :: acc
  | fuel + 1, n, acc =>
      if n < 10 then Char.ofNat (48 + n % 10) :: acc
      else natReprAux fuel (n / 10) (Char.ofNat (48 + n % 10) :: acc)

/-- Decimal representation of a natural number (`str(n)` in Python). -/
def natRepr (n : Nat) : List Char := natReprAux n n []

/-- Decimal representation of an integer (`str(m)` in Python): a leading
`'-'` exactly when the value is negative. -/
def intRepr (m : Int) : List Char :=
  if 0 ≤ m then natRepr m.toNat else '-' :: natRepr (-m).toNat

/-- The f-string of `scale_for_area`:
`f"{scaled_dice}d{die_size}{'+' if scaled_modifier >= 0 else ''}{scaled_modifier}"`. -/
def renderScaled (scaled_dice : Int) (die_size : Nat) (scaled_modifier : Int) : String :=
  String.mk (intRepr scaled_dice ++ 'd' ::
    (natRepr die_size ++
      (if 0 ≤ scaled_modifier then '+' :: intRepr scaled_modifier else intRepr scaled_modifier)))

/-- `dice.scale_for_area`: parse, add a die every 3 area levels above 1,
add `2·level_diff` to the modifier, apply the player-relative correction,
re-render.  `Int.fdiv` models Python floor division `//`. -/
def scale_for_area (base_value : String) (area_level player_level : Int) : Option String :=
  (parse_dice_string base_value).map fun t =>
    let num_dice := t.1
    let die_size := t.2.1
    let modifier := t.2.2
    let level_diff : Int := max 0 (area_level - 1)
    let scaled_dice : Int := (num_dice : Int) + level_diff.fdiv 3
    let scaled_modifier : Int := modifier + level_diff * 2
    let player_diff : Int := area_level - player_level
    let scaled_modifier := if player_diff > 2 then scaled_modifier + player_diff else scaled_modifier
    let scaled_dice :=
      if ¬(player_diff > 2) ∧ player_diff < -2 then max 1 (scaled_dice - 1) else scaled_dice
    renderScaled scaled_dice die_size scaled_modifier

/-! ### Grammar predicates (spec side)

`claimDiceGrammar` formalises the WORDS of claim C3: after removing
internal whitespace the text matches `["NN"] "d" NN [("+"|"-") NN]`, with
the `d` case-insensitive and an omitted leading count allowed.
`amendedDiceGrammar` is the amended description matching the code:
the `d` is lowercase only; the leading count may be omitted only when
the `d` is the very first character of the original text (the code tests
`startswith('d')` before removing spaces); the digits are any Unicode
decimal digits and the whole match may be followed by one single
trailing newline — both inherited from Python's `\d` and `$`. -/

/-- Matcher for the optional `[("+"|"-") NN]` suffix of the claim's
grammar. -/
def tailMatch : List Char → Bool
  | [] => true
  | c :: r => (c == '+' || c == '-') && !r.isEmpty && r.all Char.isDigit

/-- Matcher for `NN [("+"|"-") NN]` (the part after the dice letter) of
the claim's grammar. -/
def bodyMatch (r : List Char) : Bool :=
  !(r.takeWhile Char.isDigit).isEmpty && tailMatch (r.dropWhile Char.isDigit)

/-- The grammar of claim C3: optional count, case-insensitive dice letter,
checked after removing internal whitespace. -/
def claimDiceGrammar (s : String) : Bool :=
  let t := stripSpaces s.data
  match t.dropWhile Char.isDigit with
  | c :: r => (c == 'd' || c == 'D') && bodyMatch r
  | [] => false

/-- Matcher for `NN [("+"|"-") NN] $` with Python semantics (Unicode
digits, `$` accepting one trailing newline), used by the amended
grammar. -/
def pyBodyMatch (r : List Char) : Bool :=
  let rest := r.dropWhile isPyDigit
  !(r.takeWhile isPyDigit).isEmpty &&
    (pyEnd rest ||
      match rest with
      | c :: r4 =>
          (c == '+' || c == '-') && !(r4.takeWhile isPyDigit).isEmpty &&
            pyEnd (r4.dropWhile isPyDigit)
      | [] => false)

/-- The amended grammar, matching the code: lowercase `d` only; count is
required unless the original text literally starts with `'d'`, in which
case the remainder (after space removal) must match `NN [("+"|"-") NN]`;
digits are Unicode decimal digits and one trailing newline is allowed. -/
def amendedDiceGrammar (s : String) : Bool :=
  let t := stripSpaces s.data
  if s.data.head? = some 'd' then pyBodyMatch t.tail
  else
    match t.dropWhile isPyDigit with
    | c :: r => c == 'd' && !(t.takeWhile isPyDigit).isEmpty && pyBodyMatch r
    | [] => false

/-! ### Arithmetic facts about the decimal representation -/

theorem digitsVal_snoc (l : List Char) (c : Char) :
    digitsVal (l ++ [c]) = 10 * digitsVal l + digitVal c := by
  simp [digitsVal, List.foldl_append]

theorem digit_char_spec : ∀ k, k < 10 →
    (Char.ofNat (48 + k)).isDigit = true ∧ digitVal (Char.ofNat (48 + k)) = k := by decide

theorem natReprAux_acc (fuel : Nat) : ∀ n acc,
    natReprAux fuel n acc = natReprAux fuel n [] ++ acc := by
  induction fuel with
  | zero => intro n acc; rfl
  | succ f ih =>
    intro n acc
    by_cases h : n < 10
    · simp [natReprAux, h]
    · simp only [natReprAux, if_neg h]
      rw [ih (n / 10) (Char.ofNat (48 + n % 10) :: acc),
          ih (n / 10) (Char.ofNat (48 + n % 10) :: [])]
      simp

theorem natReprAux_spec : ∀ fuel n, n ≤ fuel →
    digitsVal (natReprAux fuel n []) = n ∧
    (∀ c ∈ natReprAux fuel n [], c.isDigit = true) ∧
    natReprAux fuel n [] ≠ [] := by
  intro fuel
  induction fuel with
  | zero =>
    intro n hn
    have hn0 : n = 0 := Nat.le_zero.mp hn
    subst hn0; decide
  | succ f ih =>
    intro n hn
    by_cases h : n < 10
    · have hd := digit_char_spec (n % 10) (Nat.mod_lt _ (by omega))
      have hmod : n % 10 = n := Nat.mod_eq_of_lt h
      simp only [natReprAux, if_pos h]
      refine ⟨?_, ?_, by simp⟩
      · simpa [digitsVal, hmod] using hd.2.trans hmod
      · intro c hc
        simp only [List.mem_singleton] at hc
        simpa [hc] using hd.1
    · have hdiv : n / 10 ≤ f := by
        have := Nat.div_lt_self (show 0 < n by omega) (show 1 < 10 by omega)
        omega
      obtain ⟨ihv, ihd, ihne⟩ := ih (n / 10) hdiv
      have hd := digit_char_spec (n % 10) (Nat.mod_lt _ (by omega))
      have hre : natReprAux (f + 1) n [] =
          natReprAux f (n / 10) [] ++ [Char.ofNat (48 + n % 10)] := by
        simp only [natReprAux, if_neg h]
        exact natReprAux_acc f (n / 10) _
      refine ⟨?_, ?_, ?_⟩
      · rw [hre, digitsVal_snoc, ihv, hd.2]
        omega
      · intro c hc
        rw [hre] at hc
        rcases List.mem_append.mp hc with h1 | h2
        · exact ihd c h1
        · simp only [List.mem_singleton] at h2
          simpa [h2] using hd.1
      · rw [hre]; simp

theorem natRepr_val (n : Nat) : digitsVal (natRepr n) = n :=
  (natReprAux_spec n n le_rfl).1

theorem natRepr_digits (n : Nat) : ∀ c ∈ natRepr n, c.isDigit = true :=
  (natReprAux_spec n n le_rfl).2.1

theorem natRepr_ne_nil (n : Nat) : natRepr n ≠ [] :=
  (natReprAux_spec n n le_rfl).2.2

/-! ### List helpers for the matcher proofs -/

theorem takeWhile_append_all {α : Type} {p : α → Bool} :
    ∀ (A B : List α), (∀ c ∈ A, p c = true) →
    (A ++ B).takeWhile p = A ++ B.takeWhile p := by
  intro A
  induction A with
  | nil => intro B _; simp
  | cons a A ih =>
    intro B h
    have ha : p a = true := h a (by simp)
    simp [List.takeWhile_cons_of_pos ha, ih B (fun c hc => h c (by simp [hc]))]

theorem dropWhile_append_all {α : Type} {p : α → Bool} :
    ∀ (A B : List α), (∀ c ∈ A, p c = true) →
    (A ++ B).dropWhile p = B.dropWhile p := by
  intro A
  induction A with
  | nil => intro B _; simp
  | cons a A ih =>
    intro B h
    have ha : p a = true := h a (by simp)
    simp [List.dropWhile_cons_of_pos ha, ih B (fun c hc => h c (by simp [hc]))]

theorem isDigit_ne_d {c : Char} (h : c.isDigit = true) : c ≠ 'd' := by
  intro e; subst e; exact absurd h (by decide)

theorem isDigit_ne_space {c : Char} (h : c.isDigit = true) : (c != ' ') = true := by
  cases hc : c == ' '
  · simp [bne, hc]
  · exact absurd h (by simp only [beq_iff_eq] at hc; subst hc; decide)

theorem stripSpaces_eq_self (l : List Char) (h : ∀ c ∈ l, (c != ' ') = true) :
    stripSpaces l = l := List.filter_eq_self.mpr h

/-! ### Round trip: parsing a rendered descriptor recovers it -/

theorem intRepr_natCast (n : Nat) : intRepr (n : Int) = natRepr n := by
  simp [intRepr, Int.toNat_natCast]

theorem natRepr_isEmpty (n : Nat) : (natRepr n).isEmpty = false := by
  cases h : (natRepr n).isEmpty
  · rfl
  · exact absurd (List.isEmpty_eq_true.mp h) (natRepr_ne_nil n)

theorem natRepr_all_digits (n : Nat) : (natRepr n).all Char.isDigit = true :=
  List.all_eq_true.mpr (natRepr_digits n)

theorem isPyDigit_of_isDigit {c : Char} (h : c.isDigit = true) : isPyDigit c = true := by
  simp [isPyDigit, h]

theorem natRepr_pyDigits (n : Nat) : ∀ c ∈ natRepr n, isPyDigit c = true :=
  fun c hc => isPyDigit_of_isDigit (natRepr_digits n c hc)

theorem takeWhile_all {α : Type} {p : α → Bool} (l : List α) (h : ∀ c ∈ l, p c = true) :
    l.takeWhile p = l := by
  simpa using takeWhile_append_all l [] h

theorem dropWhile_all {α : Type} {p : α → Bool} (l : List α) (h : ∀ c ∈ l, p c = true) :
    l.dropWhile p = [] := by
  simpa using dropWhile_append_all l [] h

theorem pyEnd_nil : pyEnd [] = true := rfl

theorem pyEnd_of_ne_nil (c : Char) (l : List Char) (h : l ≠ []) : pyEnd (c :: l) = false := by
  cases l with
  | nil => exact absurd rfl h
  | cons a t => rfl

theorem matchBody_render (sz : Nat) (m : Int) :
    matchBody (natRepr sz ++ (if 0 ≤ m then '+' :: intRepr m else intRepr m)) = some (sz, m) := by
  have hdig := natRepr_pyDigits sz
  by_cases hm : 0 ≤ m
  · have hIR : intRepr m = natRepr m.toNat := by simp [intRepr, hm]
    simp only [if_pos hm, hIR, matchBody]
    rw [takeWhile_append_all _ _ hdig, dropWhile_append_all _ _ hdig,
        List.takeWhile_cons_of_neg (by decide), List.dropWhile_cons_of_neg (by decide)]
    have hpe : pyEnd ('+' :: natRepr m.toNat) = false :=
      pyEnd_of_ne_nil _ _ (natRepr_ne_nil _)
    rw [List.append_nil, hpe]
    simp [natRepr_isEmpty, pyEnd_nil,
      takeWhile_all (natRepr m.toNat) (natRepr_pyDigits _),
      dropWhile_all (natRepr m.toNat) (natRepr_pyDigits _),
      natRepr_val, Int.toNat_of_nonneg hm]
  · have hIR : intRepr m = '-' :: natRepr (-m).toNat := by simp [intRepr, hm]
    simp only [if_neg hm, hIR, matchBody]
    rw [takeWhile_append_all _ _ hdig, dropWhile_append_all _ _ hdig,
        List.takeWhile_cons_of_neg (by decide), List.dropWhile_cons_of_neg (by decide)]
    have hpe : pyEnd ('-' :: natRepr (-m).toNat) = false :=
      pyEnd_of_ne_nil _ _ (natRepr_ne_nil _)
    rw [List.append_nil, hpe]
    simp [natRepr_isEmpty, pyEnd_nil,
      takeWhile_all (natRepr (-m).toNat) (natRepr_pyDigits _),
      dropWhile_all (natRepr (-m).toNat) (natRepr_pyDigits _),
      natRepr_val, Int.toNat_of_nonneg (by omega : (0:Int) ≤ -m)]

theorem renderScaled_no_space (n : Int) (sz : Nat) (m : Int) :
    ∀ c ∈ (renderScaled n sz m).data, (c != ' ') = true := by
  intro c hc
  have hint : ∀ (k : Int), ∀ c ∈ intRepr k, (c != ' ') = true := by
    intro k c hck
    simp only [intRepr] at hck
    split at hck
    · exact isDigit_ne_space (natRepr_digits _ c hck)
    · rcases List.mem_cons.mp hck with h1 | h2
      · subst h1; decide
      · exact isDigit_ne_space (natRepr_digits _ c h2)
  simp only [renderScaled] at hc
  rcases List.mem_append.mp hc with h1 | h2
  · exact hint n c h1
  · rcases List.mem_cons.mp h2 with h3 | h4
    · subst h3; decide
    · rcases List.mem_append.mp h4 with h5 | h6
      · exact isDigit_ne_space (natRepr_digits _ c h5)
      · split at h6
        · rcases List.mem_cons.mp h6 with h7 | h8
          · subst h7; decide
          · exact hint m c h8
        · exact hint m c h6

theorem parse_renderScaled (n sz : Nat) (m : Int) :
    parse_dice_string (renderScaled (n : Int) sz m) = some (n, sz, m) := by
  have hdata : (renderScaled (n : Int) sz m).data =
      natRepr n ++ 'd' :: (natRepr sz ++ (if 0 ≤ m then '+' :: intRepr m else intRepr m)) := by
    simp [renderScaled, intRepr_natCast]
  have hdig := natRepr_pyDigits n
  have hhead : (renderScaled (n : Int) sz m).data.head? ≠ some 'd' := by
    rw [hdata]
    rcases hrep : natRepr n with _ | ⟨c, t⟩
    · exact absurd hrep (natRepr_ne_nil n)
    · have hcdig : c.isDigit = true := by
        apply natRepr_digits n; rw [hrep]; simp
      simp only [List.cons_append, List.head?_cons, ne_eq, Option.some.injEq]
      exact isDigit_ne_d hcdig
  simp only [parse_dice_string, if_neg hhead]
  rw [hdata, stripSpaces_eq_self _ (by rw [← hdata]; exact renderScaled_no_space _ _ _)]
  simp only [matchDice]
  rw [takeWhile_append_all _ _ hdig, dropWhile_append_all _ _ hdig]
  rw [List.takeWhile_cons_of_neg (by decide), List.dropWhile_cons_of_neg (by decide)]
  simp only [List.append_nil, List.isEmpty_eq_true]
  rw [if_neg (natRepr_ne_nil n)]
  simp [matchBody_render, natRepr_val]

/-! ### Parser / grammar equivalence -/

theorem matchBody_isSome (r : List Char) : (matchBody r).isSome = pyBodyMatch r := by
  simp only [matchBody, pyBodyMatch]
  cases hds : (r.takeWhile isPyDigit).isEmpty
  · cases hrest : r.dropWhile isPyDigit with
    | nil => simp [hds, pyEnd]
    | cons c r4 =>
      cases hpe : pyEnd (c :: r4)
      · by_cases hp : c = '+'
        · subst hp
          cases h4 : (!(r4.takeWhile isPyDigit).isEmpty && pyEnd (r4.dropWhile isPyDigit)) <;>
            simp [hds, hpe, h4]
        · by_cases hn : c = '-'
          · subst hn
            cases h4 : (!(r4.takeWhile isPyDigit).isEmpty && pyEnd (r4.dropWhile isPyDigit)) <;>
              simp [hds, hpe, h4]
          · simp [hds, hpe, hp, hn]
      · simp [hds, hpe]
  · simp [hds]

theorem matchDice_isSome (t : List Char) : (matchDice t).isSome =
    (match t.dropWhile isPyDigit with
     | c :: r => c == 'd' && !(t.takeWhile isPyDigit).isEmpty && pyBodyMatch r
     | [] => false) := by
  simp only [matchDice]
  cases hds : (t.takeWhile isPyDigit).isEmpty
  · cases hrest : t.dropWhile isPyDigit with
    | nil => simp
    | cons c r =>
      by_cases hc : c = 'd'
      · subst hc; simp [hds, matchBody_isSome]
      · simp [hds, hc]
  · cases hrest : t.dropWhile isPyDigit with
    | nil => simp
    | cons c r => simp [hds]

theorem parse_isSome_iff_amended (s : String) :
    (parse_dice_string s).isSome = amendedDiceGrammar s := by
  simp only [parse_dice_string, amendedDiceGrammar]
  by_cases hh : s.data.head? = some 'd'
  · rw [if_pos hh, if_pos hh]
    cases hsd : s.data with
    | nil => rw [hsd] at hh; simp at hh
    | cons c r =>
      have hc : c = 'd' := by rw [hsd] at hh; simpa using hh
      subst hc
      have hstrip : stripSpaces ('d' :: r) = 'd' :: stripSpaces r := by
        simp [stripSpaces]
      have hstrip1 : stripSpaces ('1' :: 'd' :: r) = '1' :: 'd' :: stripSpaces r := by
        simp [stripSpaces]
      rw [hstrip, hstrip1]
      simp only [matchDice]
      rw [List.takeWhile_cons_of_pos (show isPyDigit '1' = true by decide),
          List.takeWhile_cons_of_neg (show ¬ isPyDigit 'd' = true by decide),
          List.dropWhile_cons_of_pos (show isPyDigit '1' = true by decide),
          List.dropWhile_cons_of_neg (show ¬ isPyDigit 'd' = true by decide)]
      simp [matchBody_isSome]
  · rw [if_neg hh, if_neg hh]
    exact matchDice_isSome _

/-- C1 counterexample: `scale_for_area("1d6", 1, 1)` returns `"1d6+0"`,
not `"1d6"`; the zero modifier is rendered as an explicit `+0` term, so
the result is not `d` unchanged in the canonical zero-omitting form. -/
theorem c1_counterexample :
    scale_for_area "1d6" 1 1 = some "1d6+0" ∧ ("1d6+0" : String) ≠ "1d6" :=
  ⟨rfl, by decide⟩

/-- C1 (amended): for every valid dice text `d`, `scale_for_area(d, 1, 1)`
returns the SAME descriptor `(count, sides, modifier)` re-rendered with
the count explicit and the modifier always carrying an explicit sign term
(including `+0` when the modifier is zero); parsing the output recovers
exactly the descriptor of `d`. -/
theorem c1_amended : ∀ (d : String) (n sz : Nat) (m : Int),
    parse_dice_string d = some (n, sz, m) →
    scale_for_area d 1 1 = some (renderScaled (n : Int) sz m) ∧
    parse_dice_string (renderScaled (n : Int) sz m) = some (n, sz, m) := by
  intro d n sz m hp
  refine ⟨?_, parse_renderScaled n sz m⟩
  simp [scale_for_area, hp, Int.zero_fdiv]

/-- C1 witness: the amended theorem applied to the concrete text
`"2d6+3"`. -/
theorem c1_amended_witness :
    scale_for_area "2d6+3" 1 1 = some (renderScaled ((2:Nat) : Int) 6 3) ∧
    parse_dice_string (renderScaled ((2:Nat) : Int) 6 3) = some (2, 6, 3) :=
  c1_amended "2d6+3" 2 6 3 rfl

/-- C3 counterexample: `"1D6"` matches the grammar stated in the claim
(case-insensitive dice letter) but `parse_dice_string` rejects it — the
code's regex only accepts a lowercase `d`. -/
theorem c3_counterexample :
    claimDiceGrammar "1D6" = true ∧ parse_dice_string "1D6" = none :=
  ⟨rfl, rfl⟩

/-- C3 (amended): the parser succeeds exactly on `amendedDiceGrammar`:
after removing spaces the text must match `NN "d" NN [("+"|"-") NN]`,
optionally followed by one single trailing newline (Python's `$`), where
`NN` is one or more Unicode decimal digits (Python's `\d`), the `d` is
lowercase only, and the leading count may be omitted only when the very
first character of the original text is `'d'` (in which case it defaults
to 1: parsing is the same as parsing with `'1'` prepended). -/
theorem c3_amended :
    (∀ s : String, (parse_dice_string s).isSome = amendedDiceGrammar s) ∧
    (∀ s : String, s.data.head? = some 'd' →
      parse_dice_string s = parse_dice_string (String.mk ('1' :: s.data))) := by
  refine ⟨parse_isSome_iff_amended, ?_⟩
  intro s hh
  have h1 : (String.mk ('1' :: s.data)).data = '1' :: s.data := rfl
  simp [parse_dice_string, hh, h1]

/-- C3 witness: the omitted count defaults to 1 on the concrete text
`"d6"`. -/
theorem c3_amended_witness :
    parse_dice_string "d6" = parse_dice_string (String.mk ('1' :: "d6".data)) :=
  c3_amended.2 "d6" rfl

/-- C5: `roll_damage` never returns a value below 1, for every weapon
text, every (possibly negative) flat bonus, every criticality flag, every
crit multiplier and every dice-draw oracle. -/
theorem c5_roll_damage_min (w : String) (b : Int) (ic : Bool) (cm : Rat)
    (draws : Nat → Nat) (v : Int) (h : roll_damage w b ic cm draws = some v) : 1 ≤ v := by
  simp only [roll_damage] at h
  cases hrd : roll_dice w draws with
  | none => rw [hrd] at h; simp at h
  | some base =>
    rw [hrd] at h
    simp only [Option.map_some', Option.some.injEq] at h
    subst h
    exact le_max_left _ _

/-- C5 witness: a heavily negative bonus on a non-critical concrete roll
still yields damage 1. -/
theorem c5_witness : (1:Int) ≤ 1 :=
  c5_roll_damage_min "1d4" (-10) false 2 (fun _ => 1) 1 (by decide)

/-- C6: for a parsed descriptor with `count ≥ 1`, `sides ≥ 1` and every
oracle whose draws lie in `[1, sides]`, the `roll_dice` total lies in
`[count + modifier, count*sides + modifier]`. -/
theorem rollSum_bounds (f : Nat → Int) (a b : Int) : ∀ n : Nat, (∀ i, i < n → a ≤ f i ∧ f i ≤ b) →
    (n : Int) * a ≤ ((List.range n).map f).sum ∧ ((List.range n).map f).sum ≤ (n : Int) * b := by
  intro n
  induction n with
  | zero => intro _; simp
  | succ k ih =>
    intro h
    obtain ⟨hl, hu⟩ := ih fun i hi => h i (by omega)
    obtain ⟨hla, hub⟩ := h k (by omega)
    rw [List.range_succ, List.map_append, List.sum_append]
    simp only [List.map_cons, List.map_nil, List.sum_cons, List.sum_nil, add_zero]
    push_cast
    constructor <;> nlinarith

theorem c6_roll_dice_bounds (d : String) (n sd : Nat) (m : Int) (draws : Nat → Nat) (t : Int)
    (hp : parse_dice_string d = some (n, sd, m)) (_hn : 1 ≤ n) (_hs : 1 ≤ sd)
    (hdr : ∀ i, i < n → 1 ≤ draws i ∧ draws i ≤ sd)
    (ht : roll_dice d draws = some t) :
    (n : Int) + m ≤ t ∧ t ≤ (n : Int) * (sd : Int) + m := by
  simp only [roll_dice, hp, Option.map_some', Option.some.injEq] at ht
  subst ht
  obtain ⟨hl, hu⟩ := rollSum_bounds (fun i => (draws i : Int)) 1 (sd : Int) n
    (fun i hi =>
      ⟨by show (1:Int) ≤ (draws i : Int); exact_mod_cast (hdr i hi).1,
       by show (draws i : Int) ≤ (sd : Int); exact_mod_cast (hdr i hi).2⟩)
  constructor
  · have : (n : Int) * 1 = (n : Int) := mul_one _
    linarith
  · linarith

/-- C6 witness: `"2d6+1"` with all draws equal to 4 totals 9, inside
`[2+1, 12+1]`. -/
theorem c6_witness : ((2:Nat) : Int) + 1 ≤ 9 ∧ (9:Int) ≤ ((2:Nat):Int) * ((6:Nat):Int) + 1 :=
  c6_roll_dice_bounds "2d6+1" 2 6 1 (fun _ => 4) 9 rfl (by decide) (by decide)
    (fun i _ => ⟨by norm_num, by norm_num⟩) (by decide)

/-! ## Engine data model (`game_engine.py`) -/

/-- A Python value that is either an int or a string (dice text). -/
inductive PyVal where
  | int (n : Int)
  | str (s : String)
deriving Repr, DecidableEq

/-- Python truthiness of a `PyVal` (`0` and `""` are falsy). -/
def PyVal.truthy : PyVal → Bool
  | .int n => n != 0
  | .str s => s != ""

/-- Python `x or y` for an optional `PyVal` (`None` and falsy values fall
through to the default). -/
def pyValOr (o : Option PyVal) (d : PyVal) : PyVal :=
  match o with
  | some v => if v.truthy then v else d
  | none => d

/-- Python `x or y` for an optional int (`None` and 0 fall through). -/
def intOr (o : Option Int) (d : Int) : Int :=
  match o with
  | some c => if c = 0 then d else c
  | none => d

/-- Python `x or y` for an optional string (`None` and `""` fall through). -/
def strOr (o : Option String) (d : String) : String :=
  match o with
  | some s => if s = "" then d else s
  | none => d

/-- The character record: the fields of `state["character"]` that the
modelled operations read or write (`className` is the `"class"` key,
`equipWeapon`/`equipArmor` are `equipment["weapon"]`/`equipment["armor"]`). -/
structure Character where
  hp : Int
  hp_max : Int
  mp : Int
  mp_max : Int
  stamina : Int
  stamina_max : Int
  strength : Int
  dexterity : Int
  intelligence : Int
  constitution : Int
  wisdom : Int
  charisma : Int
  level : Int
  damage_bonus : Int
  armor : Int
  className : String
  equipWeapon : Option String
  equipArmor : Option String
deriving Repr, DecidableEq

/-- One active status-effect instance
(`state["status_effects"][name] = {"duration": …, "power": …}`).
Instances written by this code always carry a `power` key; `none` models
a hand-edited state file without one (the `.get` default then applies). -/
structure EffectInst where
  duration : Int
  power : Option PyVal
deriving Repr, DecidableEq

/-- A `config["status_effects"][name]` entry; fields absent from the JSON
are `none` (respectively `false` for `passive`). -/
structure EffectCfg where
  damage_per_turn : Option PyVal := none
  heal_per_turn : Option PyVal := none
  duration : Option Int := none
  duration_base : Option Int := none
  skill_bonus : Option Int := none
  armor_bonus : Option Int := none
  armor_penalty : Option Int := none
  damage_bonus : Option Int := none
  passive : Bool := false
deriving Repr, DecidableEq

/-- The `config["game_constants"]` entries used by the combat operations. -/
structure Constants where
  crit_multiplier : Rat
  stamina_attack_cost : Int
  sneak_attack_bonus_per_level : Int
  stamina_dodge_cost : Int
deriving Repr, DecidableEq

/-- The hard-coded defaults of `load_config` for the fields above. -/
def defaultConstants : Constants := ⟨2, 10, 3, 5⟩

/-- An item record from the content catalog (combat-relevant fields). -/
structure Item where
  damage : Option String := none
  armor : Option Int := none
deriving Repr, DecidableEq

/-- A spell record from the content catalog.  `healing`/`damage` hold dice
strings; `effect` matters only through its presence. -/
structure Spell where
  mp_cost : Option Int := none
  healing : Option String := none
  damage : Option String := none
  effect : Option String := none
deriving Repr, DecidableEq

/-- The engine state: the character record, the ordered status-effect
mapping (Python dicts preserve insertion order; at most one instance per
name) and a counter of `save_state()` calls modelling the persist step. -/
structure EngineState where
  character : Character
  statusEffects : List (String × EffectInst)
  saves : Nat
deriving Repr, DecidableEq

/-- `save_state()`: the atomic persist step. -/
def saveState (st : EngineState) : EngineState :=
  { st with saves := st.saves + 1 }

/-- `name in self.state["status_effects"]`. -/
def hasEffect (st : EngineState) (name : String) : Bool :=
  st.statusEffects.any fun p => p.1 == name

/-- Python dict assignment `d[k] = v`: replace in place if the key exists
(keeping its position), otherwise append. -/
def setEffect (l : List (String × EffectInst)) (name : String) (inst : EffectInst) :
    List (String × EffectInst) :=
  if l.any (fun p => p.1 == name) then
    l.map fun p => if p.1 == name then (name, inst) else p
  else l ++ [(name, inst)]

/-- `char.get(attribute, 10)` restricted to the six attribute keys; any
other key falls to the default 10 (the claims in scope only exercise
attribute keys). -/
def getAttr (c : Character) (a : String) : Int :=
  if a = "strength" then c.strength
  else if a = "dexterity" then c.dexterity
  else if a = "intelligence" then c.intelligence
  else if a = "constitution" then c.constitution
  else if a = "wisdom" then c.wisdom
  else if a = "charisma" then c.charisma
  else 10

/-- Python `needle in haystack` on strings. -/
def strContains (hay needle : String) : Bool :=
  (List.range (hay.data.length + 1)).any fun i => needle.data.isPrefixOf (hay.data.drop i)

/-- The dict returned by `attack`. -/
structure AttackResult where
  damage : Int
  critical : Bool
  stamina_remaining : Int
  sneak_attack : Bool
  weapon_used : String
deriving Repr, DecidableEq

/-- The dict returned by `take_damage` (`health_percent` is exact; the
Python float division by a zero `hp_max` would raise, which is not
modelled — no claim exercises it). -/
structure DamageResult where
  damage_taken : Int
  hp_remaining : Int
  hp_max : Int
  is_alive : Bool
  health_percent : Rat
  armor_reduced : Int
deriving Repr, DecidableEq

/-- The dict returned by `heal`. -/
structure HealResult where
  healed : Int
  current : Int
  maxValue : Int
  percent : Rat
deriving Repr, DecidableEq

/-- The dict returned by `skill_check`. -/
structure CheckResult where
  success : Bool
  roll : Int
  modifier : Int
  total : Int
  difficulty : Int
  critical_success : Bool
  critical_failure : Bool
  margin : Int
deriving Repr, DecidableEq

/-- The dict returned by `apply_status_effect`. -/
structure ApplyResult where
  success : Bool
  error : Option String
  effect_applied : Option String
  durationOut : Option Int
deriving Repr, DecidableEq

/-- One entry of the `effects_log` built by `tick_status_effects`
(`{"effect": …, "type": …, "amount": …}`). -/
structure LogEntry where
  effect : String
  etype : String
  amount : Option Int
deriving Repr, DecidableEq

/-- The dict returned by `tick_status_effects`. -/
structure TickResult where
  effects_processed : Nat
  log : List LogEntry
  hp_remaining : Int
  active_effects : List String
deriving Repr, DecidableEq

/-- The dict returned by `cast_spell` (fields that are only present on
some paths are `Option`). -/
structure SpellResult where
  success : Bool
  reason : Option String
  stype : Option String
  mp_remaining : Option Int
  mp_cost : Option Int
  spell_id : Option String
  healed : Option Int
  hp : Option Int
  hp_max : Option Int
  effect_applied : Option String
  effect_value : Option Int
deriving Repr, DecidableEq

/-- The failure dict `{"success": False, "reason": r}`. -/
def SpellResult.fail (r : String) : SpellResult :=
  ⟨false, some r, none, none, none, none, none, none, none, none, none⟩

/-! ## Engine operations -/

/-- `LitRPGEngine.attack`, split into the pure damage pipeline
(`attackDamage`, steps: weapon resolution, `roll_damage`, bloodlust,
crit re-roll, sneak bonus, rage bonus, armor floor) and the state step.
`critRoll` is the outcome of the `random.random() < char["crit_chance"]`
draw; the bloodlust test `hp / hp_max <= 0.5` and the literal `1.1` are
exact rationals; `none` models an uncaught exception (invalid dice text,
an equipped-weapon lookup failure leaving `weapon_damage = None`, or a
`KeyError` on a missing `"rage"` config entry). -/
def attackDamage (cc : Constants) (cfg : String → Option EffectCfg)
    (items : String → Option Item) (draws : Nat → Nat) (critRoll : Bool)
    (weapon_damage : Option String) (target_armor : Int) (is_crit is_sneak : Bool)
    (st : EngineState) : Option (Int × Bool × String) :=
  let char := st.character
  let wd : Option String :=
    match weapon_damage with
    | some w => some w
    | none =>
      match char.equipWeapon with
      | some wid => (items wid).map fun it => it.damage.getD "1d4"
      | none => some "1d4"
  match wd with
  | none => none
  | some wds =>
    match roll_damage wds char.damage_bonus is_crit cc.crit_multiplier draws with
    | none => none
    | some dmg0 =>
      let dmg1 := if hasEffect st "bloodlust" &&
          decide ((char.hp : Rat) / (char.hp_max : Rat) ≤ 1 / 2)
        then pyTrunc ((dmg0 : Rat) * (11 / 10)) else dmg0
      let critp := !is_crit && critRoll
      let dmg2 := if critp then pyTrunc ((dmg1 : Rat) * cc.crit_multiplier) else dmg1
      let crit2 := is_crit || critp
      let dmg3 := if is_sneak && char.className.toLower == "rogue"
        then dmg2 + char.level * cc.sneak_attack_bonus_per_level else dmg2
      let dmg4? : Option Int :=
        if hasEffect st "rage" then (cfg "rage").map fun ec => dmg3 + ec.damage_bonus.getD 5
        else some dmg3
      match dmg4? with
      | none => none
      | some dmg4 => some (max 1 (dmg4 - target_armor), crit2, wds)

/-- `LitRPGEngine.attack`: run the damage pipeline, deduct the stamina
cost (floored at 0 — attacking is never blocked), persist, and return
the result dict. -/
def attack (cc : Constants) (cfg : String → Option EffectCfg) (items : String → Option Item)
    (draws : Nat → Nat) (critRoll : Bool) (weapon_damage : Option String) (target_armor : Int)
    (is_crit is_sneak : Bool) (st : EngineState) : Option (AttackResult × EngineState) :=
  match attackDamage cc cfg items draws critRoll weapon_damage target_armor is_crit is_sneak st with
  | none => none
  | some (dmg5, crit2, wds) =>
    let char1 := { st.character with
                     stamina := max 0 (st.character.stamina - cc.stamina_attack_cost) }
    some (⟨dmg5, crit2, char1.stamina, is_sneak, wds⟩, saveState { st with character := char1 })

/-- The effective-armor computation of `take_damage`: base armor +
equipped-armor bonus + shield-spell bonus − rage penalty (clamped at 0
inside the rage branch).  `none` models a `KeyError` on a missing config
entry for an active effect. -/
def takeDamageArmor (cfg : String → Option EffectCfg) (items : String → Option Item)
    (st : EngineState) : Option Int :=
  let char := st.character
  let a1 := char.armor +
    (match char.equipArmor with
     | some aid =>
       match items aid with
       | some it => it.armor.getD 0
       | none => 0
     | none => 0)
  let a2? : Option Int :=
    if hasEffect st "shield_spell" then
      (cfg "shield_spell").map fun ec => a1 + ec.armor_bonus.getD 3
    else some a1
  match a2? with
  | none => none
  | some a2 =>
    if hasEffect st "rage" then (cfg "rage").map fun ec => max 0 (a2 - ec.armor_penalty.getD 2)
    else some a2

/-- `LitRPGEngine.take_damage`: armor applies to `"physical"` damage only,
with a floor of 1; HP floors at 0; persist; report. -/
def take_damage (cfg : String → Option EffectCfg) (items : String → Option Item)
    (amount : Int) (damage_type : String) (st : EngineState) :
    Option (DamageResult × EngineState) :=
  match takeDamageArmor cfg items st with
  | none => none
  | some total_armor =>
    let char := st.character
    let amt := if damage_type = "physical" then max 1 (amount - total_armor) else amount
    let char1 := { char with hp := max 0 (char.hp - amt) }
    let st1 := saveState { st with character := char1 }
    some (⟨amt, char1.hp, char.hp_max, decide (0 < char1.hp),
           (char1.hp : Rat) / (char.hp_max : Rat),
           if damage_type = "physical" then total_armor else 0⟩, st1)

/-- Resolution of `heal`'s `amount` argument: a string goes through
`roll_healing` (with zero bonus), an int is used as is. -/
def healAmount (draws : Nat → Nat) (amount : PyVal) : Option Int :=
  match amount with
  | .int n => some n
  | .str s => roll_healing s draws 0

/-- `LitRPGEngine.heal`: clamp `resource + amount` at the resource's max.
A resource name other than `hp`/`mp`/`stamina` raises `KeyError`
(`none`). -/
def heal (draws : Nat → Nat) (amount : PyVal) (resource : String) (st : EngineState) :
    Option (HealResult × EngineState) :=
  match healAmount draws amount with
  | none => none
  | some a =>
    let char := st.character
    if resource = "hp" then
      let nv := min (char.hp + a) char.hp_max
      some (⟨nv - char.hp, nv, char.hp_max, (nv : Rat) / (char.hp_max : Rat)⟩,
            saveState { st with character := { char with hp := nv } })
    else if resource = "mp" then
      let nv := min (char.mp + a) char.mp_max
      some (⟨nv - char.mp, nv, char.mp_max, (nv : Rat) / (char.mp_max : Rat)⟩,
            saveState { st with character := { char with mp := nv } })
    else if resource = "stamina" then
      let nv := min (char.stamina + a) char.stamina_max
      some (⟨nv - char.stamina, nv, char.stamina_max, (nv : Rat) / (char.stamina_max : Rat)⟩,
            saveState { st with character := { char with stamina := nv } })
    else none

/-- `LitRPGEngine.apply_status_effect`: unknown effect names produce an
error dict without mutating or persisting; otherwise the instance is
replaced outright and the state persisted. -/
def apply_status_effect (cfg : String → Option EffectCfg) (name : String)
    (durationArg : Option Int) (powerArg : Option PyVal) (st : EngineState) :
    EngineState × ApplyResult :=
  match cfg name with
  | none => (st, ⟨false, some ("Unknown status effect: " ++ name), none, none⟩)
  | some ec =>
    let dur := durationArg.getD (ec.duration.getD (ec.duration_base.getD 5))
    let pw := pyValOr powerArg (ec.damage_per_turn.getD (PyVal.int 0))
    let st1 := saveState { st with statusEffects := setEffect st.statusEffects name ⟨dur, some pw⟩ }
    (st1, ⟨true, none, some name, some dur⟩)

/-- The `mp_cost`/spell-type/power resolution of `cast_spell` (the part
before the MP check).  Returns `none` exactly when a non-empty spell id
has no catalog entry (the `unknown_spell` path). -/
def resolveSpellCall (spells : String → Option Spell) (mp_cost : Option Int)
    (spell_id : Option String) (spell_power : Option String) :
    Option (Int × String × Option String) :=
  match spell_id with
  | some sid =>
    if sid = "" then some (intOr mp_cost 10, "damage", some (strOr spell_power "1d6"))
    else
      (spells sid).map fun spell =>
        let cost := intOr mp_cost (spell.mp_cost.getD 10)
        if spell.healing.isSome then
          (cost, "healing", some (strOr spell_power (spell.healing.getD "1d6")))
        else if spell.damage.isSome then
          (cost, "damage", some (strOr spell_power (spell.damage.getD "1d6")))
        else if spell.effect.isSome || strContains sid.toLower "shield" then
          (cost, "buff", some (strOr spell_power "0"))
        else (cost, "damage", spell_power)
  | none => some (intOr mp_cost 10, "damage", some (strOr spell_power "1d6"))

/-- The spell effect magnitude: `roll(power) + intelligence // 2` for a
dice string other than the sentinel `"0"`, `0` for `"0"`; an unresolved
(`None`) power raises `TypeError` (`none`). -/
def spellEffectValue (draws : Nat → Nat) (power : Option String) (intelligence : Int) :
    Option Int :=
  match power with
  | some s => if s = "0" then some 0 else (roll_dice s draws).map fun r => r + intelligence.fdiv 2
  | none => none

/-- `LitRPGEngine.cast_spell`: resolve the spell, check MP, deduct, roll
the effect, apply by type (healing clamps at `hp_max`; buffs apply a
status effect chosen by substring dispatch on the spell id; damage just
reports the value), persist. -/
def cast_spell (cfg : String → Option EffectCfg) (spells : String → Option Spell)
    (draws : Nat → Nat) (mp_cost : Option Int) (spell_id : Option String)
    (spell_power : Option String) (st : EngineState) : Option (SpellResult × EngineState) :=
  match resolveSpellCall spells mp_cost spell_id spell_power with
  | none => some (SpellResult.fail "unknown_spell", st)
  | some (cost, stype, power) =>
    if st.character.mp < cost then some (SpellResult.fail "insufficient_mp", st)
    else
      let char1 := { st.character with mp := st.character.mp - cost }
      let st1 := { st with character := char1 }
      match spellEffectValue draws power char1.intelligence with
      | none => none
      | some ev =>
        let base : SpellResult :=
          ⟨true, none, some stype, some char1.mp, some cost, spell_id,
           none, none, none, none, none⟩
        if stype = "healing" then
          let newhp := min char1.hp_max (char1.hp + ev)
          let st2 := saveState { st1 with character := { char1 with hp := newhp } }
          some ({ base with
                    healed := some (newhp - char1.hp), hp := some newhp,
                    hp_max := some char1.hp_max }, st2)
        else if stype = "buff" then
          let shield := match spell_id with
            | some sid => strContains sid.toLower "shield"
            | none => false
          let bless := match spell_id with
            | some sid => strContains sid.toLower "bless"
            | none => false
          if shield then
            some ({ base with effect_applied := some "shield_spell" },
                  saveState (apply_status_effect cfg "shield_spell" none none st1).1)
          else if bless then
            some ({ base with effect_applied := some "blessed" },
                  saveState (apply_status_effect cfg "blessed" none none st1).1)
          else some (base, saveState st1)
        else some ({ base with effect_value := some ev }, saveState st1)

/-- The `"blessed"` adjustment of `skill_check`'s modifier: a direct
config index (`KeyError` when the entry is missing and the effect is
active). -/
def blessedMod (cfg : String → Option EffectCfg) (st : EngineState) (m : Int) : Option Int :=
  if hasEffect st "blessed" then (cfg "blessed").map fun ec => m + ec.skill_bonus.getD 2
  else some m

/-- `LitRPGEngine.skill_check`: modifier `(attr − 10) // 2` plus blessed
bonus, minus the hard-coded 3 for `frozen` on dexterity checks; `roll` is
the d20 outcome; natural 20 auto-succeeds, natural 1 overrides to
failure.  The state is returned unchanged: no mutation, no persist. -/
def skill_check (cfg : String → Option EffectCfg) (roll : Int) (attr : String)
    (difficulty : Int) (st : EngineState) : Option (CheckResult × EngineState) :=
  let char := st.character
  let m0 := (getAttr char attr - 10).fdiv 2
  (blessedMod cfg st m0).map fun m1 =>
    let m2 := if hasEffect st "frozen" && attr == "dexterity" then m1 - 3 else m1
    let total := roll + m2
    let ics := roll == 20
    let icf := roll == 1
    let success := (decide (total ≥ difficulty) || ics) && !icf
    (⟨success, roll, m2, total, difficulty, ics, icf, total - difficulty⟩, st)

/-! ### `tick_status_effects`, split phase by phase -/

/-- The damage-over-time phase of one tick iteration. -/
def tickDamagePhase (dd : Nat → Nat) (c : Character) (name : String) (dv : PyVal) :
    Option (Character × List LogEntry) :=
  if dv.truthy then
    match dv with
    | .str s =>
      (roll_dice s dd).map fun damage =>
        if 0 < damage then
          ({ c with hp := max 0 (c.hp - damage) }, [⟨name, "damage", some damage⟩])
        else (c, [])
    | .int n =>
      some (if 0 < n then
        ({ c with hp := max 0 (c.hp - n) }, [⟨name, "damage", some n⟩])
      else (c, []))
  else some (c, [])

/-- The heal-over-time phase of one tick iteration. -/
def tickHealPhase (hd : Nat → Nat) (c : Character) (name : String) (hv : PyVal) :
    Option (Character × List LogEntry) :=
  if hv.truthy then
    match hv with
    | .str s =>
      (roll_dice s hd).map fun healing =>
        if 0 < healing then
          ({ c with hp := min (c.hp + healing) c.hp_max }, [⟨name, "healing", some healing⟩])
        else (c, [])
    | .int n =>
      some (if 0 < n then
        ({ c with hp := min (c.hp + n) c.hp_max }, [⟨name, "healing", some n⟩])
      else (c, []))
  else some (c, [])

/-- The duration phase: non-passive effects with positive duration are
decremented; at 0 the instance is deleted and an `"expired"` entry
logged. -/
def tickDurationPhase (ec : EffectCfg) (name : String) (inst : EffectInst) :
    Option EffectInst × List LogEntry :=
  if !ec.passive && decide (0 < inst.duration) then
    if inst.duration - 1 ≤ 0 then (none, [⟨name, "expired", none⟩])
    else (some ⟨inst.duration - 1, inst.power⟩, [])
  else (some inst, [])

/-- One full iteration of the `tick_status_effects` loop for one effect. -/
def tickStep (cfg : String → Option EffectCfg) (dd hd : Nat → Nat) (c : Character)
    (name : String) (inst : EffectInst) : Option (Character × List LogEntry × Option EffectInst) :=
  let ec := (cfg name).getD {}
  match tickDamagePhase dd c name (inst.power.getD (ec.damage_per_turn.getD (PyVal.int 0))) with
  | none => none
  | some (c1, lg1) =>
    match tickHealPhase hd c1 name (ec.heal_per_turn.getD (PyVal.int 0)) with
    | none => none
    | some (c2, lg2) =>
      let dp := tickDurationPhase ec name inst
      some (c2, lg1 ++ lg2 ++ dp.2, dp.1)

/-- The loop of `tick_status_effects` over the (snapshot of the) effect
list; `i` indexes the per-effect draw oracles. -/
def tickGo (cfg : String → Option EffectCfg) (dd hd : Nat → Nat → Nat) :
    Nat → Character → List (String × EffectInst) →
    Option (Character × List LogEntry × List (String × EffectInst))
  | _, c, [] => some (c, [], [])
  | i, c, (name, inst) :: rest =>
    match tickStep cfg (dd i) (hd i) c name inst with
    | none => none
    | some (c1, lg, io) =>
      match tickGo cfg dd hd (i + 1) c1 rest with
      | none => none
      | some (c2, lgs, rem) =>
        some (c2, lg ++ lgs, (match io with | some x => [(name, x)] | none => []) ++ rem)

/-- `LitRPGEngine.tick_status_effects`: process every active effect in
insertion order, persist, and report the log, the remaining HP and the
still-active effect names. -/
def tick_status_effects (cfg : String → Option EffectCfg) (dd hd : Nat → Nat → Nat)
    (st : EngineState) : Option (TickResult × EngineState) :=
  match tickGo cfg dd hd 0 st.character st.statusEffects with
  | none => none
  | some (c1, lg, rem) =>
    some (⟨lg.length, lg, c1.hp, rem.map Prod.fst⟩,
          saveState { st with character := c1, statusEffects := rem })

/-! ## The resource invariant (claim C2) -/

/-- The invariant of the spec's data model: each of hp / mp / stamina is
non-negative and at most its max. -/
def ResourceInv (c : Character) : Prop :=
  0 ≤ c.hp ∧ c.hp ≤ c.hp_max ∧ 0 ≤ c.mp ∧ c.mp ≤ c.mp_max ∧
  0 ≤ c.stamina ∧ c.stamina ≤ c.stamina_max

instance (c : Character) : Decidable (ResourceInv c) := by
  unfold ResourceInv; infer_instance

theorem attack_state (cc : Constants) (cfg : String → Option EffectCfg)
    (items : String → Option Item) (draws : Nat → Nat) (critRoll : Bool)
    (w : Option String) (ta : Int) (ic isk : Bool) (st : EngineState)
    (r : AttackResult) (st' : EngineState)
    (heq : attack cc cfg items draws critRoll w ta ic isk st = some (r, st')) :
    st' = saveState { st with character :=
      { st.character with stamina := max 0 (st.character.stamina - cc.stamina_attack_cost) } } := by
  unfold attack at heq
  split at heq
  · exact absurd heq (by simp)
  · simp only [Option.some.injEq, Prod.mk.injEq] at heq
    exact heq.2.symm

theorem take_damage_state (cfg : String → Option EffectCfg) (items : String → Option Item)
    (amount : Int) (dt : String) (st : EngineState) (r : DamageResult) (st' : EngineState)
    (heq : take_damage cfg items amount dt st = some (r, st')) :
    ∃ amt : Int, (dt = "physical" → 1 ≤ amt) ∧ (dt ≠ "physical" → amt = amount) ∧
      st' = saveState { st with character :=
        { st.character with hp := max 0 (st.character.hp - amt) } } := by
  unfold take_damage at heq
  split at heq
  · exact absurd heq (by simp)
  · rename_i total_armor htda
    simp only [Option.some.injEq, Prod.mk.injEq] at heq
    refine ⟨if dt = "physical" then max 1 (amount - total_armor) else amount, ?_, ?_, heq.2.symm⟩
    · intro h; rw [if_pos h]; exact le_max_left _ _
    · intro h; rw [if_neg h]

theorem apply_status_effect_character (cfg : String → Option EffectCfg) (n : String)
    (d : Option Int) (p : Option PyVal) (st : EngineState) :
    (apply_status_effect cfg n d p st).1.character = st.character := by
  unfold apply_status_effect
  cases cfg n <;> rfl

theorem apply_status_effect_saves (cfg : String → Option EffectCfg) (n : String)
    (d : Option Int) (p : Option PyVal) (st : EngineState) :
    st.saves ≤ (apply_status_effect cfg n d p st).1.saves := by
  unfold apply_status_effect
  cases cfg n
  · exact le_refl _
  · exact Nat.le_succ _

theorem tickDamagePhase_inv (dd : Nat → Nat) (c : Character) (name : String) (dv : PyVal)
    (c1 : Character) (lg : List LogEntry) (hInv : ResourceInv c)
    (h : tickDamagePhase dd c name dv = some (c1, lg)) : ResourceInv c1 := by
  unfold tickDamagePhase at h
  split at h
  · cases dv with
    | str s =>
      dsimp only at h
      cases hrd : roll_dice s dd with
      | none => rw [hrd] at h; simp at h
      | some damage =>
        rw [hrd] at h
        simp only [Option.map_some', Option.some.injEq] at h
        by_cases hd : 0 < damage
        · rw [if_pos hd] at h
          obtain ⟨rfl, -⟩ := Prod.mk.injEq .. ▸ h
          unfold ResourceInv at hInv ⊢
          dsimp only
          omega
        · rw [if_neg hd] at h
          obtain ⟨rfl, -⟩ := Prod.mk.injEq .. ▸ h
          exact hInv
    | int n =>
      dsimp only at h
      simp only [Option.some.injEq] at h
      by_cases hd : 0 < n
      · rw [if_pos hd] at h
        obtain ⟨rfl, -⟩ := Prod.mk.injEq .. ▸ h
        unfold ResourceInv at hInv ⊢
        dsimp only
        omega
      · rw [if_neg hd] at h
        obtain ⟨rfl, -⟩ := Prod.mk.injEq .. ▸ h
        exact hInv
  · simp only [Option.some.injEq] at h
    obtain ⟨rfl, -⟩ := Prod.mk.injEq .. ▸ h
    exact hInv

theorem tickHealPhase_inv (hdr : Nat → Nat) (c : Character) (name : String) (hv : PyVal)
    (c1 : Character) (lg : List LogEntry) (hInv : ResourceInv c)
    (h : tickHealPhase hdr c name hv = some (c1, lg)) : ResourceInv c1 := by
  unfold tickHealPhase at h
  split at h
  · cases hv with
    | str s =>
      dsimp only at h
      cases hrd : roll_dice s hdr with
      | none => rw [hrd] at h; simp at h
      | some healing =>
        rw [hrd] at h
        simp only [Option.map_some', Option.some.injEq] at h
        by_cases hd : 0 < healing
        · rw [if_pos hd] at h
          obtain ⟨rfl, -⟩ := Prod.mk.injEq .. ▸ h
          unfold ResourceInv at hInv ⊢
          dsimp only
          omega
        · rw [if_neg hd] at h
          obtain ⟨rfl, -⟩ := Prod.mk.injEq .. ▸ h
          exact hInv
    | int n =>
      dsimp only at h
      simp only [Option.some.injEq] at h
      by_cases hd : 0 < n
      · rw [if_pos hd] at h
        obtain ⟨rfl, -⟩ := Prod.mk.injEq .. ▸ h
        unfold ResourceInv at hInv ⊢
        dsimp only
        omega
      · rw [if_neg hd] at h
        obtain ⟨rfl, -⟩ := Prod.mk.injEq .. ▸ h
        exact hInv
  · simp only [Option.some.injEq] at h
    obtain ⟨rfl, -⟩ := Prod.mk.injEq .. ▸ h
    exact hInv

theorem tickStep_inv (cfg : String → Option EffectCfg) (dd hdo : Nat → Nat) (c : Character)
    (name : String) (inst : EffectInst) (c2 : Character) (lg : List LogEntry)
    (io : Option EffectInst) (hInv : ResourceInv c)
    (h : tickStep cfg dd hdo c name inst = some (c2, lg, io)) : ResourceInv c2 := by
  unfold tickStep at h
  dsimp only at h
  cases hdp : tickDamagePhase dd c name
      (inst.power.getD ((((cfg name).getD {}).damage_per_turn).getD (PyVal.int 0))) with
  | none => rw [hdp] at h; simp at h
  | some p1 =>
    rw [hdp] at h
    obtain ⟨c1, lg1⟩ := p1
    dsimp only at h
    cases hhp : tickHealPhase hdo c1 name ((((cfg name).getD {}).heal_per_turn).getD (PyVal.int 0)) with
    | none => rw [hhp] at h; simp at h
    | some p2 =>
      rw [hhp] at h
      obtain ⟨c2', lg2⟩ := p2
      dsimp only at h
      simp only [Option.some.injEq, Prod.mk.injEq] at h
      have h1 := tickDamagePhase_inv dd c name _ c1 lg1 hInv hdp
      have h2 := tickHealPhase_inv hdo c1 name _ c2' lg2 h1 hhp
      rw [← h.1]
      exact h2

theorem tickGo_inv (cfg : String → Option EffectCfg) (dd hdo : Nat → Nat → Nat) :
    ∀ (l : List (String × EffectInst)) (i : Nat) (c c' : Character)
      (lg : List LogEntry) (rem : List (String × EffectInst)),
    ResourceInv c → tickGo cfg dd hdo i c l = some (c', lg, rem) → ResourceInv c' := by
  intro l
  induction l with
  | nil =>
    intro i c c' lg rem hInv h
    unfold tickGo at h
    simp only [Option.some.injEq, Prod.mk.injEq] at h
    rw [← h.1]
    exact hInv
  | cons p rest ih =>
    intro i c c' lg rem hInv h
    obtain ⟨name, inst⟩ := p
    unfold tickGo at h
    cases hts : tickStep cfg (dd i) (hdo i) c name inst with
    | none => rw [hts] at h; simp at h
    | some q =>
      rw [hts] at h
      obtain ⟨c1, lg1, io⟩ := q
      dsimp only at h
      cases htg : tickGo cfg dd hdo (i + 1) c1 rest with
      | none => rw [htg] at h; simp at h
      | some q2 =>
        rw [htg] at h
        obtain ⟨c2, lgs, rem'⟩ := q2
        dsimp only at h
        simp only [Option.some.injEq, Prod.mk.injEq] at h
        have h1 := tickStep_inv cfg (dd i) (hdo i) c name inst c1 lg1 io hInv hts
        have h2 := ih (i + 1) c1 c2 lgs rem' h1 htg
        rw [← h.1]
        exact h2

/-! ### Concrete fixtures shared by witnesses and counterexamples -/

/-- A sample character: hp 3/10, mp 5/10, stamina 10/10, all attributes
10, level 1, damage bonus 2, no armor, no equipment. -/
def sampleChar : Character :=
  ⟨3, 10, 5, 10, 10, 10, 10, 10, 10, 10, 10, 10, 1, 2, 0, "warrior", none, none⟩

def sampleState : EngineState := ⟨sampleChar, [], 0⟩

/-- The state produced by `heal(-5, "hp")` from `sampleState`: hp −2. -/
def c2BadState : EngineState := ⟨{ sampleChar with hp := -2 }, [], 1⟩

def noCfg : String → Option EffectCfg := fun _ => none

def noItems : String → Option Item := fun _ => none

def noSpells : String → Option Spell := fun _ => none

def oneDraw : Nat → Nat := fun _ => 1

/-- A config carrying only `poisoned` (5 damage per turn, duration 3). -/
def tickCfgW : String → Option EffectCfg := fun n =>
  if n = "poisoned" then some { damage_per_turn := some (PyVal.int 5), duration := some 3 }
  else none

/-- A state with full HP and a `poisoned` instance of duration 1. -/
def tickStateW : EngineState :=
  ⟨{ sampleChar with hp := 10 }, [("poisoned", ⟨1, some (PyVal.int 5)⟩)], 0⟩

/-- What one tick of `tickStateW` returns. -/
def tickResW : TickResult :=
  ⟨2, [⟨"poisoned", "damage", some 5⟩, ⟨"poisoned", "expired", none⟩], 5, []⟩

/-- The state after one tick of `tickStateW`. -/
def tickStW : EngineState := ⟨{ sampleChar with hp := 5 }, [], 1⟩

/-- C2 counterexample: from a state satisfying the resource invariant,
`heal` with amount −5 drives hp to −2 — the invariant is NOT preserved by
every mutating operation (`min(hp + amount, hp_max)` has no lower
clamp). -/
theorem c2_counterexample :
    ResourceInv sampleState.character ∧
    ((heal oneDraw (PyVal.int (-5)) "hp" sampleState).map fun p => p.2) = some c2BadState ∧
    ¬ ResourceInv c2BadState.character :=
  ⟨by decide, rfl, by decide⟩

/-- C2 (amended): starting from any state satisfying the invariant,
`attack` preserves it whenever the configured stamina cost is
non-negative; `take_damage` whenever the damage amount is non-negative;
`heal` whenever the resolved heal amount is non-negative; `cast_spell`
whenever the effective MP cost and the computed spell effect value are
non-negative; and `tick_status_effects` unconditionally.  (With negative
amounts — e.g. `heal(-5)` — the invariant can be violated.) -/
theorem c2_amended :
    (∀ (cc : Constants) (cfg : String → Option EffectCfg) (items : String → Option Item)
       (draws : Nat → Nat) (critRoll : Bool) (w : Option String) (ta : Int) (ic isk : Bool)
       (st : EngineState) (r : AttackResult) (st' : EngineState),
      0 ≤ cc.stamina_attack_cost → ResourceInv st.character →
      attack cc cfg items draws critRoll w ta ic isk st = some (r, st') →
      ResourceInv st'.character) ∧
    (∀ (cfg : String → Option EffectCfg) (items : String → Option Item) (amount : Int)
       (dt : String) (st : EngineState) (r : DamageResult) (st' : EngineState),
      0 ≤ amount → ResourceInv st.character →
      take_damage cfg items amount dt st = some (r, st') → ResourceInv st'.character) ∧
    (∀ (draws : Nat → Nat) (amount : PyVal) (resource : String) (st : EngineState)
       (r : HealResult) (st' : EngineState) (a : Int),
      healAmount draws amount = some a → 0 ≤ a → ResourceInv st.character →
      heal draws amount resource st = some (r, st') → ResourceInv st'.character) ∧
    (∀ (cfg : String → Option EffectCfg) (spells : String → Option Spell) (draws : Nat → Nat)
       (mp : Option Int) (sid pw : Option String) (st : EngineState) (r : SpellResult)
       (st' : EngineState) (cost : Int) (stype : String) (power : Option String),
      resolveSpellCall spells mp sid pw = some (cost, stype, power) → 0 ≤ cost →
      (∀ v, spellEffectValue draws power st.character.intelligence = some v → 0 ≤ v) →
      ResourceInv st.character → cast_spell cfg spells draws mp sid pw st = some (r, st') →
      ResourceInv st'.character) ∧
    (∀ (cfg : String → Option EffectCfg) (dd hdo : Nat → Nat → Nat) (st : EngineState)
       (r : TickResult) (st' : EngineState),
      ResourceInv st.character →
      tick_status_effects cfg dd hdo st = some (r, st') → ResourceInv st'.character) := by
  refine ⟨?_, ?_, ?_, ?_, ?_⟩
  · intro cc cfg items draws critRoll w ta ic isk st r st' h0 hInv heq
    obtain rfl := attack_state cc cfg items draws critRoll w ta ic isk st r st' heq
    unfold ResourceInv saveState at *
    dsimp only at *
    omega
  · intro cfg items amount dt st r st' h0 hInv heq
    obtain ⟨amt, h1, h2, rfl⟩ := take_damage_state cfg items amount dt st r st' heq
    have hamt : 0 ≤ amt := by
      by_cases hp : dt = "physical"
      · have := h1 hp; omega
      · rw [h2 hp]; exact h0
    unfold ResourceInv saveState at *
    dsimp only at *
    omega
  · intro draws amount resource st r st' a ha h0 hInv heq
    unfold heal at heq
    rw [ha] at heq
    dsimp only at heq
    by_cases h1 : resource = "hp"
    · rw [if_pos h1] at heq
      simp only [Option.some.injEq, Prod.mk.injEq] at heq
      rw [← heq.2]
      unfold ResourceInv saveState at *
      dsimp only at *
      omega
    · rw [if_neg h1] at heq
      by_cases h2 : resource = "mp"
      · rw [if_pos h2] at heq
        simp only [Option.some.injEq, Prod.mk.injEq] at heq
        rw [← heq.2]
        unfold ResourceInv saveState at *
        dsimp only at *
        omega
      · rw [if_neg h2] at heq
        by_cases h3 : resource = "stamina"
        · rw [if_pos h3] at heq
          simp only [Option.some.injEq, Prod.mk.injEq] at heq
          rw [← heq.2]
          unfold ResourceInv saveState at *
          dsimp only at *
          omega
        · rw [if_neg h3] at heq
          exact absurd heq (by simp)
  · intro cfg spells draws mp sid pw st r st' cost stype power hres hcost hev hInv heq
    unfold cast_spell at heq
    rw [hres] at heq
    dsimp only at heq
    by_cases hmp : st.character.mp < cost
    · rw [if_pos hmp] at heq
      simp only [Option.some.injEq, Prod.mk.injEq] at heq
      rw [← heq.2]
      exact hInv
    · rw [if_neg hmp] at heq
      have hchar1 : ResourceInv { st.character with mp := st.character.mp - cost } := by
        unfold ResourceInv at hInv ⊢
        dsimp only
        omega
      cases hevv : spellEffectValue draws power st.character.intelligence with
      | none => rw [hevv] at heq; simp at heq
      | some ev =>
        rw [hevv] at heq
        dsimp only at heq
        have hev0 : 0 ≤ ev := hev ev hevv
        by_cases hheal : stype = "healing"
        · rw [if_pos hheal] at heq
          simp only [Option.some.injEq, Prod.mk.injEq] at heq
          rw [← heq.2]
          unfold ResourceInv at hInv ⊢
          unfold saveState
          dsimp only
          omega
        · rw [if_neg hheal] at heq
          by_cases hbuff : stype = "buff"
          · rw [if_pos hbuff] at heq
            split at heq
            · simp only [Option.some.injEq, Prod.mk.injEq] at heq
              rw [← heq.2]
              unfold saveState
              dsimp only
              rw [apply_status_effect_character]
              exact hchar1
            · split at heq
              · simp only [Option.some.injEq, Prod.mk.injEq] at heq
                rw [← heq.2]
                unfold saveState
                dsimp only
                rw [apply_status_effect_character]
                exact hchar1
              · simp only [Option.some.injEq, Prod.mk.injEq] at heq
                rw [← heq.2]
                unfold saveState
                dsimp only
                exact hchar1
          · rw [if_neg hbuff] at heq
            simp only [Option.some.injEq, Prod.mk.injEq] at heq
            rw [← heq.2]
            unfold saveState
            dsimp only
            exact hchar1
  · intro cfg dd hdo st r st' hInv heq
    unfold tick_status_effects at heq
    cases htg : tickGo cfg dd hdo 0 st.character st.statusEffects with
    | none => rw [htg] at heq; simp at heq
    | some q =>
      rw [htg] at heq
      obtain ⟨c1, lg, rem⟩ := q
      dsimp only at heq
      simp only [Option.some.injEq, Prod.mk.injEq] at heq
      rw [← heq.2]
      unfold saveState
      dsimp only
      exact tickGo_inv cfg dd hdo st.statusEffects 0 st.character c1 lg rem hInv htg

/-- C2 witness: one tick of the concrete poisoned state keeps the
invariant (hp 10 → 5 inside [0, 10]). -/
theorem c2_amended_witness : ResourceInv tickStW.character :=
  c2_amended.2.2.2.2 tickCfgW (fun _ _ => 1) (fun _ _ => 1) tickStateW tickResW tickStW
    (by decide) rfl

/-! ## Claims C4, C7, C9, C10 -/

/-- The effective MP cost of a `cast_spell` call: the override, unless it
is `None` or 0, in which case the catalog cost (default 10) or the plain
default 10 applies. -/
def effectiveMpCost (spells : String → Option Spell) (mp_cost : Option Int)
    (spell_id : Option String) : Option Int :=
  match spell_id with
  | some sid =>
    if sid = "" then some (intOr mp_cost 10)
    else (spells sid).map fun sp => intOr mp_cost (sp.mp_cost.getD 10)
  | none => some (intOr mp_cost 10)

theorem resolveSpellCall_cost (spells : String → Option Spell) (mp_cost : Option Int)
    (spell_id : Option String) (spell_power : Option String) (cost : Int) (stype : String)
    (power : Option String)
    (h : resolveSpellCall spells mp_cost spell_id spell_power = some (cost, stype, power)) :
    effectiveMpCost spells mp_cost spell_id = some cost := by
  unfold resolveSpellCall effectiveMpCost at *
  cases spell_id with
  | none =>
    dsimp only at h ⊢
    simp only [Option.some.injEq, Prod.mk.injEq] at h
    simp [h.1]
  | some sid =>
    dsimp only at h ⊢
    by_cases hs : sid = ""
    · rw [if_pos hs] at h ⊢
      simp only [Option.some.injEq, Prod.mk.injEq] at h
      simp [h.1]
    · rw [if_neg hs] at h ⊢
      cases hsp : spells sid with
      | none => rw [hsp] at h; simp at h
      | some spell =>
        rw [hsp] at h
        simp only [Option.map_some', Option.some.injEq] at h ⊢
        repeat' split at h
        all_goals simp_all

theorem resolveSpellCall_none (spells : String → Option Spell) (mp_cost : Option Int)
    (spell_id : Option String) (spell_power : Option String)
    (h : resolveSpellCall spells mp_cost spell_id spell_power = none) :
    effectiveMpCost spells mp_cost spell_id = none := by
  unfold resolveSpellCall effectiveMpCost at *
  cases spell_id with
  | none => simp at h
  | some sid =>
    dsimp only at h ⊢
    by_cases hs : sid = ""
    · rw [if_pos hs] at h; simp at h
    · rw [if_neg hs] at h ⊢
      cases hsp : spells sid with
      | none => simp
      | some spell => rw [hsp] at h; simp at h

/-- C4: whenever current MP is strictly below the effective MP cost,
`cast_spell` returns `{success: false, reason: "insufficient_mp"}` and
the returned state is EXACTLY the input state — no field is mutated and
no persist step happens. -/
theorem c4_insufficient_mp (cfg : String → Option EffectCfg) (spells : String → Option Spell)
    (draws : Nat → Nat) (mp_cost : Option Int) (spell_id : Option String)
    (spell_power : Option String) (st : EngineState) (cost : Int)
    (h1 : effectiveMpCost spells mp_cost spell_id = some cost)
    (h2 : st.character.mp < cost) :
    cast_spell cfg spells draws mp_cost spell_id spell_power st =
      some (SpellResult.fail "insufficient_mp", st) := by
  unfold cast_spell
  cases hres : resolveSpellCall spells mp_cost spell_id spell_power with
  | none => rw [resolveSpellCall_none spells mp_cost spell_id spell_power hres] at h1; simp at h1
  | some t =>
    obtain ⟨c, stype, power⟩ := t
    have := resolveSpellCall_cost spells mp_cost spell_id spell_power c stype power hres
    rw [this] at h1
    simp only [Option.some.injEq] at h1
    subst h1
    dsimp only
    rw [if_pos h2]

/-- C4 witness: casting with no spell and no override from 5 MP (cost
defaults to 10) fails softly and leaves the state untouched. -/
theorem c4_witness :
    cast_spell noCfg noSpells oneDraw none none none sampleState =
      some (SpellResult.fail "insufficient_mp", sampleState) :=
  c4_insufficient_mp noCfg noSpells oneDraw none none none sampleState 10 rfl (by decide)

/-- C7: in `skill_check`, a natural 1 forces failure no matter how large
`roll + modifier` is, a natural 20 forces success no matter how small it
is, and otherwise success holds exactly when `total ≥ difficulty`. -/
theorem c7_skill_check (cfg : String → Option EffectCfg) (roll : Int) (attr : String)
    (diff : Int) (st : EngineState) (r : CheckResult) (st' : EngineState)
    (heq : skill_check cfg roll attr diff st = some (r, st')) :
    (roll = 1 → r.success = false) ∧ (roll = 20 → r.success = true) ∧
    (roll ≠ 1 → roll ≠ 20 → (r.success = true ↔ diff ≤ r.total)) := by
  unfold skill_check at heq
  dsimp only at heq
  cases hbm : blessedMod cfg st ((getAttr st.character attr - 10).fdiv 2) with
  | none => rw [hbm] at heq; simp at heq
  | some m1 =>
    rw [hbm] at heq
    simp only [Option.map_some', Option.some.injEq, Prod.mk.injEq] at heq
    obtain ⟨hr, -⟩ := heq
    subst hr
    refine ⟨?_, ?_, ?_⟩
    · intro h1; subst h1
      simp
    · intro h20; subst h20
      simp
    · intro h1 h20
      have e1 : (roll == 1) = false := beq_eq_false_iff_ne.mpr h1
      have e20 : (roll == 20) = false := beq_eq_false_iff_ne.mpr h20
      dsimp only
      rw [e1, e20]
      simp [ge_iff_le, decide_eq_true_eq]

/-- The result of `skill_check(dexterity, 15)` on `sampleState` with a
forced roll of 1. -/
def c7Res : CheckResult := ⟨false, 1, 0, 1, 15, false, true, -14⟩

/-- C7 witness: a natural 1 yields failure on the concrete check. -/
theorem c7_witness : c7Res.success = false :=
  (c7_skill_check noCfg 1 "dexterity" 15 sampleState c7Res sampleState (by decide)).1 rfl

/-- C10: passing an explicit `mp_cost` of 0 is indistinguishable from
passing no override at all — Python `0 or x` discards the zero, so the
cost falls back to the catalog cost (or the default 10) and a free cast
can never be requested through the override. -/
theorem c10_zero_cost_override (cfg : String → Option EffectCfg)
    (spells : String → Option Spell) (draws : Nat → Nat) (sid pw : Option String)
    (st : EngineState) :
    cast_spell cfg spells draws (some 0) sid pw st =
      cast_spell cfg spells draws none sid pw st := by
  have h : resolveSpellCall spells (some 0) sid pw = resolveSpellCall spells none sid pw := by
    unfold resolveSpellCall intOr
    cases sid with
    | none => simp
    | some s =>
      by_cases hs : s = ""
      · simp [hs]
      · simp [hs]
  unfold cast_spell
  rw [h]

/-- C9: `skill_check` is pure — for every state, effect set and RNG
outcome the returned state is exactly the input state (no mutation, no
persist) — while every other modelled combat operation persists: attack,
take_damage, heal and tick increment the save counter whenever they
return, and cast_spell increments it whenever it succeeds. -/
theorem c9_skill_check_pure :
    (∀ (cfg : String → Option EffectCfg) (roll : Int) (attr : String) (diff : Int)
       (st : EngineState) (r : CheckResult) (st' : EngineState),
      skill_check cfg roll attr diff st = some (r, st') → st' = st) ∧
    (∀ (cc : Constants) (cfg : String → Option EffectCfg) (items : String → Option Item)
       (draws : Nat → Nat) (critRoll : Bool) (w : Option String) (ta : Int) (ic isk : Bool)
       (st : EngineState) (r : AttackResult) (st' : EngineState),
      attack cc cfg items draws critRoll w ta ic isk st = some (r, st') →
      st'.saves = st.saves + 1) ∧
    (∀ (cfg : String → Option EffectCfg) (items : String → Option Item) (amount : Int)
       (dt : String) (st : EngineState) (r : DamageResult) (st' : EngineState),
      take_damage cfg items amount dt st = some (r, st') → st'.saves = st.saves + 1) ∧
    (∀ (draws : Nat → Nat) (amount : PyVal) (resource : String) (st : EngineState)
       (r : HealResult) (st' : EngineState),
      heal draws amount resource st = some (r, st') → st'.saves = st.saves + 1) ∧
    (∀ (cfg : String → Option EffectCfg) (dd hdo : Nat → Nat → Nat) (st : EngineState)
       (r : TickResult) (st' : EngineState),
      tick_status_effects cfg dd hdo st = some (r, st') → st'.saves = st.saves + 1) ∧
    (∀ (cfg : String → Option EffectCfg) (spells : String → Option Spell) (draws : Nat → Nat)
       (mp : Option Int) (sid pw : Option String) (st : EngineState) (r : SpellResult)
       (st' : EngineState),
      cast_spell cfg spells draws mp sid pw st = some (r, st') → r.success = true →
      st.saves < st'.saves) := by
  refine ⟨?_, ?_, ?_, ?_, ?_, ?_⟩
  · intro cfg roll attr diff st r st' heq
    unfold skill_check at heq
    dsimp only at heq
    cases hbm : blessedMod cfg st ((getAttr st.character attr - 10).fdiv 2) with
    | none => rw [hbm] at heq; simp at heq
    | some m1 =>
      rw [hbm] at heq
      simp only [Option.map_some', Option.some.injEq, Prod.mk.injEq] at heq
      exact heq.2.symm
  · intro cc cfg items draws critRoll w ta ic isk st r st' heq
    obtain rfl := attack_state cc cfg items draws critRoll w ta ic isk st r st' heq
    rfl
  · intro cfg items amount dt st r st' heq
    obtain ⟨amt, -, -, rfl⟩ := take_damage_state cfg items amount dt st r st' heq
    rfl
  · intro draws amount resource st r st' heq
    unfold heal at heq
    cases ha : healAmount draws amount with
    | none => rw [ha] at heq; simp at heq
    | some a =>
      rw [ha] at heq
      dsimp only at heq
      split at heq
      · simp only [Option.some.injEq, Prod.mk.injEq] at heq
        rw [← heq.2]; rfl
      · split at heq
        · simp only [Option.some.injEq, Prod.mk.injEq] at heq
          rw [← heq.2]; rfl
        · split at heq
          · simp only [Option.some.injEq, Prod.mk.injEq] at heq
            rw [← heq.2]; rfl
          · exact absurd heq (by simp)
  · intro cfg dd hdo st r st' heq
    unfold tick_status_effects at heq
    cases htg : tickGo cfg dd hdo 0 st.character st.statusEffects with
    | none => rw [htg] at heq; simp at heq
    | some q =>
      rw [htg] at heq
      obtain ⟨c1, lg, rem⟩ := q
      dsimp only at heq
      simp only [Option.some.injEq, Prod.mk.injEq] at heq
      rw [← heq.2]; rfl
  · intro cfg spells draws mp sid pw st r st' heq hsucc
    unfold cast_spell at heq
    cases hres : resolveSpellCall spells mp sid pw with
    | none =>
      rw [hres] at heq
      simp only [Option.some.injEq, Prod.mk.injEq] at heq
      rw [← heq.1] at hsucc
      exact absurd hsucc (by simp [SpellResult.fail])
    | some t =>
      rw [hres] at heq
      obtain ⟨cost, stype, power⟩ := t
      dsimp only at heq
      by_cases hmp : st.character.mp < cost
      · rw [if_pos hmp] at heq
        simp only [Option.some.injEq, Prod.mk.injEq] at heq
        rw [← heq.1] at hsucc
        exact absurd hsucc (by simp [SpellResult.fail])
      · rw [if_neg hmp] at heq
        cases hevv : spellEffectValue draws power
            ({ st.character with mp := st.character.mp - cost }).intelligence with
        | none => rw [hevv] at heq; simp at heq
        | some ev =>
          rw [hevv] at heq
          dsimp only at heq
          split at heq
          · simp only [Option.some.injEq, Prod.mk.injEq] at heq
            rw [← heq.2]
            exact Nat.lt_succ_of_le (Nat.le_refl _)
          · split at heq
            · split at heq
              · simp only [Option.some.injEq, Prod.mk.injEq] at heq
                rw [← heq.2]
                unfold saveState
                dsimp only
                have := apply_status_effect_saves cfg "shield_spell" none none
                  { st with character := { st.character with mp := st.character.mp - cost } }
                dsimp only at this
                omega
              · split at heq
                · simp only [Option.some.injEq, Prod.mk.injEq] at heq
                  rw [← heq.2]
                  unfold saveState
                  dsimp only
                  have := apply_status_effect_saves cfg "blessed" none none
                    { st with character := { st.character with mp := st.character.mp - cost } }
                  dsimp only at this
                  omega
                · simp only [Option.some.injEq, Prod.mk.injEq] at heq
                  rw [← heq.2]
                  exact Nat.lt_succ_of_le (Nat.le_refl _)
            · simp only [Option.some.injEq, Prod.mk.injEq] at heq
              rw [← heq.2]
              exact Nat.lt_succ_of_le (Nat.le_refl _)

/-- C9 witness: one tick of the concrete poisoned state persists exactly
once. -/
theorem c9_witness : tickStW.saves = tickStateW.saves + 1 :=
  c9_skill_check_pure.2.2.2.2.1 tickCfgW (fun _ _ => 1) (fun _ _ => 1) tickStateW
    tickResW tickStW rfl

/-! ## Claim C8: expiry of duration-1 effects -/

/-- Recognises the `{"effect": n, "type": "expired"}` log entries for a
given effect name. -/
def isExpiredEntryFor (n : String) (e : LogEntry) : Bool :=
  e.etype == "expired" && e.effect == n

theorem tickDamagePhase_log (dd : Nat → Nat) (c : Character) (name : String) (dv : PyVal)
    (c1 : Character) (lg : List LogEntry)
    (h : tickDamagePhase dd c name dv = some (c1, lg)) :
    ∀ e ∈ lg, e.effect = name ∧ e.etype = "damage" := by
  unfold tickDamagePhase at h
  split at h
  · cases dv with
    | str s =>
      dsimp only at h
      cases hrd : roll_dice s dd with
      | none => rw [hrd] at h; simp at h
      | some damage =>
        rw [hrd] at h
        simp only [Option.map_some', Option.some.injEq] at h
        by_cases hd0 : 0 < damage
        · rw [if_pos hd0] at h
          obtain ⟨-, rfl⟩ := Prod.mk.injEq .. ▸ h
          intro e he
          simp only [List.mem_singleton] at he
          subst he
          exact ⟨rfl, rfl⟩
        · rw [if_neg hd0] at h
          obtain ⟨-, rfl⟩ := Prod.mk.injEq .. ▸ h
          intro e he
          exact absurd he (by simp)
    | int n =>
      dsimp only at h
      simp only [Option.some.injEq] at h
      by_cases hd0 : 0 < n
      · rw [if_pos hd0] at h
        obtain ⟨-, rfl⟩ := Prod.mk.injEq .. ▸ h
        intro e he
        simp only [List.mem_singleton] at he
        subst he
        exact ⟨rfl, rfl⟩
      · rw [if_neg hd0] at h
        obtain ⟨-, rfl⟩ := Prod.mk.injEq .. ▸ h
        intro e he
        exact absurd he (by simp)
  · simp only [Option.some.injEq] at h
    obtain ⟨-, rfl⟩ := Prod.mk.injEq .. ▸ h
    intro e he
    exact absurd he (by simp)

theorem tickHealPhase_log (hdr : Nat → Nat) (c : Character) (name : String) (hv : PyVal)
    (c1 : Character) (lg : List LogEntry)
    (h : tickHealPhase hdr c name hv = some (c1, lg)) :
    ∀ e ∈ lg, e.effect = name ∧ e.etype = "healing" := by
  unfold tickHealPhase at h
  split at h
  · cases hv with
    | str s =>
      dsimp only at h
      cases hrd : roll_dice s hdr with
      | none => rw [hrd] at h; simp at h
      | some healing =>
        rw [hrd] at h
        simp only [Option.map_some', Option.some.injEq] at h
        by_cases hd0 : 0 < healing
        · rw [if_pos hd0] at h
          obtain ⟨-, rfl⟩ := Prod.mk.injEq .. ▸ h
          intro e he
          simp only [List.mem_singleton] at he
          subst he
          exact ⟨rfl, rfl⟩
        · rw [if_neg hd0] at h
          obtain ⟨-, rfl⟩ := Prod.mk.injEq .. ▸ h
          intro e he
          exact absurd he (by simp)
    | int n =>
      dsimp only at h
      simp only [Option.some.injEq] at h
      by_cases hd0 : 0 < n
      · rw [if_pos hd0] at h
        obtain ⟨-, rfl⟩ := Prod.mk.injEq .. ▸ h
        intro e he
        simp only [List.mem_singleton] at he
        subst he
        exact ⟨rfl, rfl⟩
      · rw [if_neg hd0] at h
        obtain ⟨-, rfl⟩ := Prod.mk.injEq .. ▸ h
        intro e he
        exact absurd he (by simp)
  · simp only [Option.some.injEq] at h
    obtain ⟨-, rfl⟩ := Prod.mk.injEq .. ▸ h
    intro e he
    exact absurd he (by simp)

theorem tickDurationPhase_log (ec : EffectCfg) (name : String) (inst : EffectInst) :
    ∀ e ∈ (tickDurationPhase ec name inst).2, e.effect = name ∧ e.etype = "expired" := by
  unfold tickDurationPhase
  split
  · split
    · intro e he
      simp only [List.mem_singleton] at he
      subst he
      exact ⟨rfl, rfl⟩
    · intro e he
      exact absurd he (by simp)
  · intro e he
    exact absurd he (by simp)

theorem tickDurationPhase_dur1 (ec : EffectCfg) (name : String) (inst : EffectInst)
    (hdur : inst.duration = 1) (hpass : ec.passive = false) :
    tickDurationPhase ec name inst = (none, [⟨name, "expired", none⟩]) := by
  unfold tickDurationPhase
  rw [hpass, hdur]
  norm_num

theorem tickStep_shape (cfg : String → Option EffectCfg) (dd hdo : Nat → Nat) (c : Character)
    (name : String) (inst : EffectInst) (c2 : Character) (lg : List LogEntry)
    (io : Option EffectInst)
    (h : tickStep cfg dd hdo c name inst = some (c2, lg, io)) :
    ∃ (c1 : Character) (lg1 lg2 : List LogEntry),
      tickDamagePhase dd c name
        (inst.power.getD ((((cfg name).getD {}).damage_per_turn).getD (PyVal.int 0))) =
        some (c1, lg1) ∧
      tickHealPhase hdo c1 name ((((cfg name).getD {}).heal_per_turn).getD (PyVal.int 0)) =
        some (c2, lg2) ∧
      lg = lg1 ++ lg2 ++ (tickDurationPhase ((cfg name).getD {}) name inst).2 ∧
      io = (tickDurationPhase ((cfg name).getD {}) name inst).1 := by
  unfold tickStep at h
  dsimp only at h
  cases hdp : tickDamagePhase dd c name
      (inst.power.getD ((((cfg name).getD {}).damage_per_turn).getD (PyVal.int 0))) with
  | none => rw [hdp] at h; simp at h
  | some p1 =>
    rw [hdp] at h
    obtain ⟨c1, lg1⟩ := p1
    dsimp only at h
    cases hhp : tickHealPhase hdo c1 name ((((cfg name).getD {}).heal_per_turn).getD (PyVal.int 0)) with
    | none => rw [hhp] at h; simp at h
    | some p2 =>
      rw [hhp] at h
      obtain ⟨c2', lg2⟩ := p2
      dsimp only at h
      simp only [Option.some.injEq, Prod.mk.injEq] at h
      obtain ⟨hc, hl, hio⟩ := h
      refine ⟨c1, lg1, lg2, rfl, ?_, hl.symm, hio.symm⟩
      rw [← hc]
      exact hhp

theorem tickStep_log (cfg : String → Option EffectCfg) (dd hdo : Nat → Nat) (c : Character)
    (name : String) (inst : EffectInst) (c2 : Character) (lg : List LogEntry)
    (io : Option EffectInst)
    (h : tickStep cfg dd hdo c name inst = some (c2, lg, io)) :
    ∀ e ∈ lg, e.effect = name := by
  obtain ⟨c1, lg1, lg2, hdp, hhp, rfl, -⟩ := tickStep_shape cfg dd hdo c name inst c2 lg io h
  intro e he
  rcases List.mem_append.mp he with h12 | h3
  · rcases List.mem_append.mp h12 with h1 | h2
    · exact (tickDamagePhase_log dd c name _ c1 lg1 hdp e h1).1
    · exact (tickHealPhase_log hdo c1 name _ c2 lg2 hhp e h2).1
  · exact (tickDurationPhase_log _ name inst e h3).1

theorem countP_zero_of_effect_ne (n m : String) (lg : List LogEntry) (hne : m ≠ n)
    (hall : ∀ e ∈ lg, e.effect = m) : lg.countP (isExpiredEntryFor n) = 0 := by
  rw [List.countP_eq_zero]
  intro e he
  have := hall e he
  unfold isExpiredEntryFor
  rw [this]
  simp [hne]

theorem tickStep_expired_of_dur1 (cfg : String → Option EffectCfg) (dd hdo : Nat → Nat)
    (c : Character) (name : String) (inst : EffectInst) (c2 : Character) (lg : List LogEntry)
    (io : Option EffectInst) (hdur : inst.duration = 1)
    (hpass : ((cfg name).getD {}).passive = false)
    (h : tickStep cfg dd hdo c name inst = some (c2, lg, io)) :
    io = none ∧ lg.countP (isExpiredEntryFor name) = 1 := by
  obtain ⟨c1, lg1, lg2, hdp, hhp, rfl, hio⟩ := tickStep_shape cfg dd hdo c name inst c2 lg io h
  rw [tickDurationPhase_dur1 _ name inst hdur hpass] at hio ⊢
  refine ⟨hio, ?_⟩
  rw [List.countP_append, List.countP_append]
  have h1 : lg1.countP (isExpiredEntryFor name) = 0 := by
    rw [List.countP_eq_zero]
    intro e he
    have := tickDamagePhase_log dd c name _ c1 lg1 hdp e he
    unfold isExpiredEntryFor
    rw [this.2]
    simp
  have h2 : lg2.countP (isExpiredEntryFor name) = 0 := by
    rw [List.countP_eq_zero]
    intro e he
    have := tickHealPhase_log hdo c1 name _ c2 lg2 hhp e he
    unfold isExpiredEntryFor
    rw [this.2]
    simp
  rw [h1, h2]
  simp [List.countP_cons, isExpiredEntryFor]

theorem tickGo_notmem (cfg : String → Option EffectCfg) (dd hdo : Nat → Nat → Nat) (n : String) :
    ∀ (l : List (String × EffectInst)) (i : Nat) (c c' : Character) (lg : List LogEntry)
      (rem : List (String × EffectInst)),
      n ∉ l.map Prod.fst → tickGo cfg dd hdo i c l = some (c', lg, rem) →
      lg.countP (isExpiredEntryFor n) = 0 ∧ n ∉ rem.map Prod.fst := by
  intro l
  induction l with
  | nil =>
    intro i c c' lg rem hn h
    unfold tickGo at h
    simp only [Option.some.injEq, Prod.mk.injEq] at h
    rw [← h.2.1, ← h.2.2]
    simp
  | cons p rest ih =>
    intro i c c' lg rem hn h
    obtain ⟨m, j⟩ := p
    have hmn : m ≠ n := by
      intro e; subst e
      exact hn (by simp)
    have hn' : n ∉ rest.map Prod.fst := fun hx => hn (by simp [hx])
    unfold tickGo at h
    cases hts : tickStep cfg (dd i) (hdo i) c m j with
    | none => rw [hts] at h; simp at h
    | some q =>
      rw [hts] at h
      obtain ⟨c1, lg1, io⟩ := q
      dsimp only at h
      cases htg : tickGo cfg dd hdo (i + 1) c1 rest with
      | none => rw [htg] at h; simp at h
      | some q2 =>
        rw [htg] at h
        obtain ⟨c2, lgs, rem'⟩ := q2
        dsimp only at h
        simp only [Option.some.injEq, Prod.mk.injEq] at h
        obtain ⟨h0, hrest⟩ := ih (i + 1) c1 c2 lgs rem' hn' htg
        have hstep : lg1.countP (isExpiredEntryFor n) = 0 :=
          countP_zero_of_effect_ne n m lg1 hmn
            (tickStep_log cfg (dd i) (hdo i) c m j c1 lg1 io hts)
        constructor
        · rw [← h.2.1, List.countP_append, hstep, h0]
        · rw [← h.2.2]
          intro hx
          simp only [List.map_append, List.mem_append] at hx
          rcases hx with hx | hx
          · cases io with
            | none => simp at hx
            | some x =>
              simp only [List.map_cons, List.map_nil, List.mem_singleton] at hx
              exact hmn hx.symm
          · exact hrest hx

theorem tickGo_expires (cfg : String → Option EffectCfg) (dd hdo : Nat → Nat → Nat) (n : String)
    (inst : EffectInst) (hdur : inst.duration = 1)
    (hpass : ((cfg n).getD {}).passive = false) :
    ∀ (l1 l2 : List (String × EffectInst)) (i : Nat) (c c' : Character) (lg : List LogEntry)
      (rem : List (String × EffectInst)),
      n ∉ l1.map Prod.fst → n ∉ l2.map Prod.fst →
      tickGo cfg dd hdo i c (l1 ++ (n, inst) :: l2) = some (c', lg, rem) →
      lg.countP (isExpiredEntryFor n) = 1 ∧ n ∉ rem.map Prod.fst := by
  intro l1
  induction l1 with
  | nil =>
    intro l2 i c c' lg rem h1 h2 h
    rw [List.nil_append] at h
    unfold tickGo at h
    cases hts : tickStep cfg (dd i) (hdo i) c n inst with
    | none => rw [hts] at h; simp at h
    | some q =>
      rw [hts] at h
      obtain ⟨c1, lg1, io⟩ := q
      dsimp only at h
      cases htg : tickGo cfg dd hdo (i + 1) c1 l2 with
      | none => rw [htg] at h; simp at h
      | some q2 =>
        rw [htg] at h
        obtain ⟨c2, lgs, rem'⟩ := q2
        dsimp only at h
        simp only [Option.some.injEq, Prod.mk.injEq] at h
        obtain ⟨hio, hc1⟩ := tickStep_expired_of_dur1 cfg (dd i) (hdo i) c n inst c1 lg1 io
          hdur hpass hts
        obtain ⟨h0, hrest⟩ := tickGo_notmem cfg dd hdo n l2 (i + 1) c1 c2 lgs rem' h2 htg
        subst hio
        constructor
        · rw [← h.2.1, List.countP_append, hc1, h0]
        · rw [← h.2.2]
          simpa using hrest
  | cons p rest ih =>
    intro l2 i c c' lg rem h1 h2 h
    obtain ⟨m, j⟩ := p
    have hmn : m ≠ n := by
      intro e; subst e
      exact h1 (by simp)
    have h1' : n ∉ rest.map Prod.fst := fun hx => h1 (by simp [hx])
    rw [List.cons_append] at h
    unfold tickGo at h
    cases hts : tickStep cfg (dd i) (hdo i) c m j with
    | none => rw [hts] at h; simp at h
    | some q =>
      rw [hts] at h
      obtain ⟨c1, lg1, io⟩ := q
      dsimp only at h
      cases htg : tickGo cfg dd hdo (i + 1) c1 (rest ++ (n, inst) :: l2) with
      | none => rw [htg] at h; simp at h
      | some q2 =>
        rw [htg] at h
        obtain ⟨c2, lgs, rem'⟩ := q2
        dsimp only at h
        simp only [Option.some.injEq, Prod.mk.injEq] at h
        obtain ⟨h0, hrest⟩ := ih l2 (i + 1) c1 c2 lgs rem' h1' h2 htg
        have hstep : lg1.countP (isExpiredEntryFor n) = 0 :=
          countP_zero_of_effect_ne n m lg1 hmn
            (tickStep_log cfg (dd i) (hdo i) c m j c1 lg1 io hts)
        constructor
        · rw [← h.2.1, List.countP_append, hstep, h0]
        · rw [← h.2.2]
          intro hx
          simp only [List.map_append, List.mem_append] at hx
          rcases hx with hx | hx
          · cases io with
            | none => simp at hx
            | some x =>
              simp only [List.map_cons, List.map_nil, List.mem_singleton] at hx
              exact hmn hx.symm
          · exact hrest hx

/-- C8: for every active, non-passive status effect with remaining
duration 1 (effect names are unique — they key a Python dict), a single
`tick_status_effects` call deletes the instance (its name is gone from
the post-state mapping), appends exactly one `"expired"` log entry for
it, and omits its name from the returned list of active effects. -/
theorem c8_tick_expiry (cfg : String → Option EffectCfg) (dd hdo : Nat → Nat → Nat)
    (st : EngineState) (n : String) (inst : EffectInst) (r : TickResult) (st' : EngineState)
    (hmem : (n, inst) ∈ st.statusEffects)
    (hnd : (st.statusEffects.map Prod.fst).Nodup)
    (hdur : inst.duration = 1)
    (hpass : ((cfg n).getD {}).passive = false)
    (heq : tick_status_effects cfg dd hdo st = some (r, st')) :
    n ∉ st'.statusEffects.map Prod.fst ∧
    r.log.countP (isExpiredEntryFor n) = 1 ∧
    n ∉ r.active_effects := by
  obtain ⟨l1, l2, hsplit⟩ := List.append_of_mem hmem
  have hkeys : st.statusEffects.map Prod.fst = l1.map Prod.fst ++ n :: l2.map Prod.fst := by
    rw [hsplit]; simp
  rw [hkeys] at hnd
  rw [List.nodup_append] at hnd
  have hn1 : n ∉ l1.map Prod.fst := fun hx => (hnd.2.2 hx (by simp)).elim
  have hn2 : n ∉ l2.map Prod.fst := by
    have := hnd.2.1
    rw [List.nodup_cons] at this
    exact this.1
  unfold tick_status_effects at heq
  cases htg : tickGo cfg dd hdo 0 st.character st.statusEffects with
  | none => rw [htg] at heq; simp at heq
  | some q =>
    rw [htg] at heq
    obtain ⟨c1, lg, rem⟩ := q
    dsimp only at heq
    simp only [Option.some.injEq, Prod.mk.injEq] at heq
    rw [hsplit] at htg
    obtain ⟨hcount, hrem⟩ := tickGo_expires cfg dd hdo n inst hdur hpass l1 l2 0
      st.character c1 lg rem hn1 hn2 htg
    refine ⟨?_, ?_, ?_⟩
    · rw [← heq.2]
      unfold saveState
      dsimp only
      exact hrem
    · rw [← heq.1]
      dsimp only
      exact hcount
    · rw [← heq.1]
      dsimp only
      exact hrem

/-- C8 witness: the concrete poisoned state (duration 1) after one tick:
deleted, exactly one expiration entry, absent from the active list. -/
theorem c8_witness :
    "poisoned" ∉ tickStW.statusEffects.map Prod.fst ∧
    tickResW.log.countP (isExpiredEntryFor "poisoned") = 1 ∧
    "poisoned" ∉ tickResW.active_effects :=
  c8_tick_expiry tickCfgW (fun _ _ => 1) (fun _ _ => 1) tickStateW "poisoned"
    ⟨1, some (PyVal.int 5)⟩ tickResW tickStW (by decide) (by decide) rfl rfl rfl

end Game
